import Mathlib

/-!
Shallow embedding of the `wumpus-world` repository (Python) in Lean 4,
used to settle the frozen claims C1–C10 about the natural-language spec.

Modelling conventions:

* Python `int` becomes `Int`; Python `bool` becomes `Bool`.
* A Python list of fixed length `n` that is only read and written through
  integer indexing is modelled as a function `Fin n → α` together with the
  index coercion `pyIdx n : Int → Option (Fin n)`, which captures Python's
  indexing semantics exactly: indices `0 ≤ i < n` are used directly,
  negative indices `-n ≤ i < 0` wrap to `i + n`, and anything else raises
  `IndexError`.  Code that can raise is modelled in `Except PyErr`.
* The knowledge-base operations are additionally parametrised by the index
  coercion (`KBIdx`) so that claim C9 ("indexing never raises and never
  wraps around via a negative index") can be stated as agreement between
  the Python coercion `pyIdx 6` and the wrap-free coercion `strictIdx 6`.
* Rendering / debug printing (`Knowledge_base._print_knowledge_base`,
  `Agent.print_path_stack_status`, `Controller._print_game_state`,
  `Controller._print_environment` and the `print` statements inside the
  decision procedures) is elided: the spec places "text rendering of the
  grid and turn summaries" out of scope.  Note for the record that
  `Controller._print_game_state` reads `self.agent.count_arrow`, a field
  `Agent` does not define, so in Python the rendering itself would raise;
  this is part of the rendering layer and not modelled.
* `wumpus/models/percept.py` declares only four cue fields
  (`stench`, `breeze`, `glitter`, `scream`), but the environment
  (`Environment.get_percept` passes `bump=`), the knowledge base, the agent
  and the controller all consume a fifth cue `bump`, and the spec's data
  model prescribes "five independent booleans" including the collision cue.
  The model therefore gives `Percept` the five fields used by the rest of
  the repository.
-/

namespace Wumpus

/-- Python runtime errors that the modelled code can raise. -/
inductive PyErr where
  | indexError
  | typeError
  | attributeError
deriving DecidableEq, Repr

/-- Enumeration of the four headings, in the fixed (clockwise) declaration
order NORTH, EAST, SOUTH, WEST of `wumpus/models/direction.py`. -/
inductive Direction where
  | NORTH
  | EAST
  | SOUTH
  | WEST
deriving DecidableEq, Repr

/-- Per-heading `(row_delta, col_delta)` movement offsets
(`Direction.delta` in `wumpus/models/direction.py`). -/
def Direction.delta : Direction → Int × Int
  | .NORTH => (-1, 0)
  | .EAST => (0, 1)
  | .SOUTH => (1, 0)
  | .WEST => (0, -1)

/-- Iteration order of `for d in Direction` in Python: declaration order. -/
def directionList : List Direction :=
  [Direction.NORTH, Direction.EAST, Direction.SOUTH, Direction.WEST]

/-- Immutable grid coordinate (`wumpus/models/location.py`). -/
structure Location where
  row : Int
  col : Int
deriving DecidableEq, Repr

/-- Result of moving one step in a heading (`Location.move`). -/
def Location.move (l : Location) (d : Direction) : Location :=
  ⟨l.row + d.delta.1, l.col + d.delta.2⟩

/-- Neighbour list in the fixed order north, east, south, west
(`Location.get_adjacent`). -/
def Location.get_adjacent (l : Location) : List Location :=
  directionList.map l.move

/-- Sensory snapshot.  See the file header: the model carries the five cue
fields actually consumed by the repository (the committed
`wumpus/models/percept.py` omits `bump`, which its callers nevertheless
construct and read). -/
structure Percept where
  stench : Bool := false
  breeze : Bool := false
  glitter : Bool := false
  scream : Bool := false
  bump : Bool := false
deriving DecidableEq, Repr

/-- Agent actions (`wumpus/models/action.py`). -/
inductive Action where
  | FORWARD
  | TURN_LEFT
  | TURN_RIGHT
  | SHOOT_ARROW
  | GRAB_GOLD
  | CLIMB
deriving DecidableEq, Repr

/-- Python indexing coercion for a list of length `n`: direct for
`0 ≤ i < n`, wrap-around for `-n ≤ i < 0`, `IndexError` otherwise. -/
def pyIdx (n : Nat) (i : Int) : Option (Fin n) :=
  if h : 0 ≤ i ∧ i < (n : Int) then some ⟨i.toNat, by omega⟩
  else if h2 : -(n : Int) ≤ i ∧ i < 0 then some ⟨(i + n).toNat, by omega⟩
  else none

/-- Wrap-free indexing: defined only for `0 ≤ i < n`.  Used to state that
the knowledge-base operations never rely on negative-index wrap-around. -/
def strictIdx (n : Nat) (i : Int) : Option (Fin n) :=
  if h : 0 ≤ i ∧ i < (n : Int) then some ⟨i.toNat, by omega⟩ else none

/-- Per-cell belief record (`Knowledge_Cell` in
`wumpus/agent/knowledge_base.py`).  The Python attribute `unsafe` is a
reserved word in Lean and is rendered as `isUnsafe`. -/
structure Knowledge_Cell where
  visited : Bool := false
  possible_wumpus : Int := 0
  possible_pit : Int := 0
  no_pit_for_sure : Bool := false
  no_wumpus_for_sure : Bool := false
  safe : Bool := false
  isUnsafe : Bool := false
  wall : Bool := false
deriving DecidableEq, Repr

/-- Size of the knowledge grid: `Knowledge_base.size` defaults to 6 and the
agent always constructs the knowledge base with this default. -/
def kbSize : Nat := 6

/-- Belief grid (`Knowledge_base`): a 6×6 matrix of belief cells, modelled
as a function per the file-header convention. -/
structure Knowledge_base where
  grid : Fin kbSize → Fin kbSize → Knowledge_Cell

instance : DecidableEq Knowledge_base := fun a b =>
  decidable_of_iff (a.grid = b.grid) (by cases a; cases b; simp)

/-- Fresh knowledge base: `__post_init__` fills the grid with
default-constructed cells. -/
def freshKB : Knowledge_base := ⟨fun _ _ => {}⟩

/-- Index coercion used by the knowledge-base operations; instantiated with
`pyIdx 6` (Python behaviour) or `strictIdx 6` (wrap-free) for claim C9. -/
def KBIdx := Int → Option (Fin kbSize)

/-- Reading `self.grid[r][c]`. -/
def getCellI (idx : KBIdx) (kb : Knowledge_base) (r c : Int) :
    Except PyErr Knowledge_Cell :=
  match idx r, idx c with
  | some i, some j => .ok (kb.grid i j)
  | _, _ => .error .indexError

/-- Reading `self.grid[r][c]` and mutating the resulting (aliased) cell
object in place, modelled as a functional update at the resolved index. -/
def modifyCellI (idx : KBIdx) (kb : Knowledge_base) (r c : Int)
    (f : Knowledge_Cell → Knowledge_Cell) : Except PyErr Knowledge_base :=
  match idx r, idx c with
  | some i, some j =>
      .ok ⟨fun i2 j2 => if i2 = i ∧ j2 = j then f (kb.grid i j) else kb.grid i2 j2⟩
  | _, _ => .error .indexError

/-- Functional single-cell overwrite of the knowledge grid (the value a
successful `modifyCellI` produces). -/
def kbSet (kb : Knowledge_base) (i j : Fin kbSize) (c : Knowledge_Cell) :
    Knowledge_base :=
  ⟨fun i2 j2 => if i2 = i ∧ j2 = j then c else kb.grid i2 j2⟩

namespace Knowledge_base

/-- Method `_mark_current_as_visited_and_safe`: mark the current location
visited and safe and reset both risk counters. -/
def mark_current_as_visited_and_safe (idx : KBIdx) (kb : Knowledge_base)
    (location : Location) : Except PyErr Knowledge_base :=
  modifyCellI idx kb location.row location.col fun c =>
    { c with visited := true, safe := true, possible_pit := 0, possible_wumpus := 0 }

/-- Helper for `_get_valid_adjacent_cells`: the Python `for` loop over the
adjacent locations, keeping those whose cell is not visited, not a wall and
not safe (grid reads happen left to right and may raise). -/
def validAdjAux (idx : KBIdx) (kb : Knowledge_base) :
    List Location → Except PyErr (List Location)
  | [] => .ok []
  | l :: rest => do
      let c ← getCellI idx kb l.row l.col
      let tail ← validAdjAux idx kb rest
      if !c.visited && !c.wall && !c.safe then .ok (l :: tail) else .ok tail

/-- Method `_get_valid_adjacent_cells`. -/
def get_valid_adjacent_cells (idx : KBIdx) (kb : Knowledge_base)
    (location : Location) : Except PyErr (List Location) :=
  validAdjAux idx kb location.get_adjacent

/-- Per-cell transformation performed by the `_apply_breeze_and_stench`
loop body on a neighbour cell (already-visited cells are skipped). -/
def applyCellPercept (percept : Percept) (c : Knowledge_Cell) : Knowledge_Cell :=
  if c.visited then c
  else
    let c1 :=
      if !percept.breeze then { c with possible_pit := 0, no_pit_for_sure := true }
      else if !c.no_pit_for_sure then { c with possible_pit := c.possible_pit + 1 }
      else c
    let c2 :=
      if !percept.stench then
        { c1 with possible_wumpus := 0, no_wumpus_for_sure := true }
      else if !c1.no_wumpus_for_sure then
        { c1 with possible_wumpus := c1.possible_wumpus + 1 }
      else c1
    if !percept.breeze && !percept.stench then
      { c2 with safe := true, no_pit_for_sure := true, no_wumpus_for_sure := true }
    else c2

/-- Loop of `_apply_breeze_and_stench` over the list of adjacent cells. -/
def applyCellsAux (idx : KBIdx) (percept : Percept) :
    List Location → Knowledge_base → Except PyErr Knowledge_base
  | [], kb => .ok kb
  | l :: rest, kb => do
      let kb2 ← modifyCellI idx kb l.row l.col (applyCellPercept percept)
      applyCellsAux idx percept rest kb2

/-- Method `_apply_breeze_and_stench`. -/
def apply_breeze_and_stench (idx : KBIdx) (kb : Knowledge_base)
    (adjacent_cells : List Location) (percept : Percept) :
    Except PyErr Knowledge_base :=
  applyCellsAux idx percept adjacent_cells kb

/-- Method `mark_wall`: when the percept carries a bump, mark the cell one
step ahead as a wall and zero its risk counters.  Note the source reads
`self.grid[wall_row][wall_col]` before the range check, so an index past
the end raises even though the subsequent check would have failed. -/
def mark_wall (idx : KBIdx) (kb : Knowledge_base) (location : Location)
    (direction : Direction) (percept : Percept) : Except PyErr Knowledge_base :=
  if percept.bump then
    getCellI idx kb (location.row + direction.delta.1)
        (location.col + direction.delta.2) >>= fun _ =>
      if 0 ≤ location.row + direction.delta.1 ∧
          location.row + direction.delta.1 < (kbSize : Int) ∧
          0 ≤ location.col + direction.delta.2 ∧
          location.col + direction.delta.2 < (kbSize : Int) then
        modifyCellI idx kb (location.row + direction.delta.1)
          (location.col + direction.delta.2) fun c =>
            { c with wall := true, possible_pit := 0, possible_wumpus := 0 }
      else .ok kb
  else .ok kb

/-- Method `mark_unsafe`: latch the cell at `location` as unsafe. -/
def markUnsafe (idx : KBIdx) (kb : Knowledge_base) (location : Location) :
    Except PyErr Knowledge_base :=
  modifyCellI idx kb location.row location.col fun c => { c with isUnsafe := true }

/-- While-loop of `delete_wumpus`, walking outward along `(dr, dc)` while
the next cell is in bounds; the first unsafe cell with positive wumpus risk
is reclassified safe.  The loop provably makes at most 7 steps, so the fuel
of 16 supplied by `delete_wumpus` is never exhausted. -/
def deleteWumpusLoop (idx : KBIdx) (dr dc : Int) :
    Nat → Int → Int → Knowledge_base → Except PyErr Knowledge_base
  | 0, _, _, kb => .ok kb
  | fuel + 1, r, c, kb =>
    if 0 ≤ r + dr ∧ r + dr < (kbSize : Int) ∧ 0 ≤ c + dc ∧ c + dc < (kbSize : Int) then do
      let cell ← getCellI idx kb (r + dr) (c + dc)
      if cell.isUnsafe ∧ cell.possible_wumpus > 0 then
        modifyCellI idx kb (r + dr) (c + dc) fun cl =>
          { cl with isUnsafe := false, safe := true, possible_wumpus := 0 }
      else deleteWumpusLoop idx dr dc fuel (r + dr) (c + dc) kb
    else .ok kb

/-- Method `delete_wumpus`. -/
def delete_wumpus (idx : KBIdx) (kb : Knowledge_base) (location : Location)
    (direction : Direction) (percept : Percept) : Except PyErr Knowledge_base :=
  if percept.scream then
    deleteWumpusLoop idx direction.delta.1 direction.delta.2 16
      location.row location.col kb
  else .ok kb

/-- While-loop of `mark_no_wumpus_along_direction` (the bounds test against
the literals 0 and 5 is hard-coded in the source). -/
def markNoWumpusLoop (idx : KBIdx) (dr dc : Int) :
    Nat → Location → Knowledge_base → Except PyErr Knowledge_base
  | 0, _, kb => .ok kb
  | fuel + 1, cur, kb =>
    if cur.row + dr > 5 ∨ cur.row + dr < 0 ∨ cur.col + dc > 5 ∨ cur.col + dc < 0 then
      .ok kb
    else
      modifyCellI idx kb (cur.row + dr) (cur.col + dc)
          (fun c => { c with possible_wumpus := 0 }) >>= fun kb2 =>
        markNoWumpusLoop idx dr dc fuel ⟨cur.row + dr, cur.col + dc⟩ kb2

/-- Method `mark_no_wumpus_along_direction`. -/
def mark_no_wumpus_along_direction (idx : KBIdx) (kb : Knowledge_base)
    (location : Location) (direction : Direction) : Except PyErr Knowledge_base :=
  markNoWumpusLoop idx direction.delta.1 direction.delta.2 16 location kb

/-- Method `update_with_percept`: optional scream and bump handling, then —
only if the current cell is not yet visited — mark it visited and safe and
update the valid adjacent cells from the percept. -/
def update_with_percept (idx : KBIdx) (kb : Knowledge_base) (location : Location)
    (direction : Direction) (percept : Percept) : Except PyErr Knowledge_base :=
  (if percept.scream then delete_wumpus idx kb location direction percept
   else .ok kb) >>= fun kb1 =>
  (if percept.bump then mark_wall idx kb1 location direction percept
   else .ok kb1) >>= fun kb2 =>
  getCellI idx kb2 location.row location.col >>= fun c =>
  if !c.visited then
    mark_current_as_visited_and_safe idx kb2 location >>= fun kb3 =>
    get_valid_adjacent_cells idx kb3 location >>= fun valid =>
    apply_breeze_and_stench idx kb3 valid percept
  else .ok kb2

/-- Loop of the list comprehension in `get_adjacent_cells`, pairing each
kept neighbour with its combined risk (the value Python's `sorted` key
function reads from the unchanged grid). -/
def filterValidPairs (idx : KBIdx) (kb : Knowledge_base) :
    List Location → Except PyErr (List (Location × Int))
  | [] => .ok []
  | l :: rest => do
      let c ← getCellI idx kb l.row l.col
      let tail ← filterValidPairs idx kb rest
      if !c.wall && !c.visited && !c.isUnsafe then
        .ok ((l, c.possible_wumpus + c.possible_pit) :: tail)
      else .ok tail

/-- Comparison used to sort candidates by combined risk. -/
def riskLe (a b : Location × Int) : Bool := a.2 ≤ b.2

/-- Method `get_adjacent_cells`: neighbours that are not walls, not
visited and not unsafe, sorted ascending by combined risk.  Python's
`sorted` is a stable ascending sort, modelled by the (stable) `mergeSort`. -/
def get_adjacent_cells (idx : KBIdx) (kb : Knowledge_base)
    (location : Location) : Except PyErr (List Location) := do
  let pairs ← filterValidPairs idx kb location.get_adjacent
  .ok ((pairs.mergeSort riskLe).map Prod.fst)

end Knowledge_base

/-- Agent state (`wumpus/agent/agent.py`).  The path stack is a Python
list used with `append` / `pop` / `[-1]`, so its top is the LAST element. -/
structure Agent where
  is_backtracking : Bool := false
  is_alive : Bool := true
  location : Location := ⟨1, 1⟩
  direction : Direction := .NORTH
  has_arrow : Bool := true
  has_gold : Bool := false
  kb : Knowledge_base := freshKB
  path_stack : List Location := []

namespace Agent

/-- Method `Agent.update_state_with_percept`.  The source contains two call
errors that this model reproduces faithfully:
firstly `self.kb.mark_wall(self.location, percept, self.direction)` passes
`percept` where `mark_wall` expects `direction` and vice versa, so inside
`mark_wall` the expression `percept.bump` is evaluated on a `Direction`
value and raises `AttributeError`; secondly
`self.kb.update_with_percept(self.location, percept)` omits the `direction`
argument of the three-parameter method and raises `TypeError`. -/
def update_state_with_percept (a : Agent) (percept : Percept) :
    Except PyErr Agent := do
  let _ ←
    if percept.bump then (.error .attributeError : Except PyErr Unit)
    else .ok ()
  let c ← getCellI (pyIdx kbSize) a.kb a.location.row a.location.col
  if !c.visited then .error .typeError
  else .ok a

/-- Method `Agent._move_forward`: step forward after a 4×4 playable-area
bounds check, pushing the pre-move location on the path stack unless the
agent carries the gold or is backtracking. -/
def move_forward (a : Agent) : Option String × Agent :=
  let nl := a.location.move a.direction
  if !(1 ≤ nl.row ∧ nl.row ≤ 4 ∧ 1 ≤ nl.col ∧ nl.col ≤ 4 : Prop) then
    (some "벽에 부딪혔습니다.", a)
  else
    let a2 :=
      if a.has_gold || a.is_backtracking then a
      else { a with path_stack := a.path_stack ++ [a.location] }
    (none, { a2 with location := nl })

/-- Method `Agent._turn_left`. -/
def turn_left (a : Agent) : Agent :=
  match a.direction with
  | .NORTH => { a with direction := .WEST }
  | .EAST => { a with direction := .NORTH }
  | .SOUTH => { a with direction := .EAST }
  | .WEST => { a with direction := .SOUTH }

/-- Method `Agent._turn_right`. -/
def turn_right (a : Agent) : Agent :=
  match a.direction with
  | .NORTH => { a with direction := .EAST }
  | .EAST => { a with direction := .SOUTH }
  | .SOUTH => { a with direction := .WEST }
  | .WEST => { a with direction := .NORTH }

/-- Method `Agent._shoot_arrow`. -/
def shoot_arrow (a : Agent) : Option String × Agent :=
  if !a.has_arrow then (some "화살이 없습니다.", a)
  else (none, { a with has_arrow := false })

/-- Method `Agent.get_backtrack_action`: peek the stack top, turn right
until aligned with it, then pop and move forward. -/
def get_backtrack_action (a : Agent) : Option Action × Agent :=
  match a.path_stack.getLast? with
  | none => (none, a)
  | some target =>
    let dr := target.row - a.location.row
    let dc := target.col - a.location.col
    match directionList.find? (fun d => d.delta = (dr, dc)) with
    | none => (none, a)
    | some target_direction =>
      if a.direction ≠ target_direction then (some .TURN_RIGHT, a)
      else
        (some .FORWARD,
          { a with path_stack := a.path_stack.dropLast, is_backtracking := true })

/-- Method `Agent.get_exploration_action`: head toward the lowest-risk
candidate neighbour, turning right until aligned. -/
def get_exploration_action (a : Agent) : Except PyErr (Option Action) := do
  let valid ← Knowledge_base.get_adjacent_cells (pyIdx kbSize) a.kb a.location
  match valid with
  | [] => .ok none
  | target :: _ =>
    let dr := target.row - a.location.row
    let dc := target.col - a.location.col
    match directionList.find? (fun d => d.delta = (dr, dc)) with
    | none => .ok none
    | some target_direction =>
      if a.direction ≠ target_direction then .ok (some .TURN_RIGHT)
      else .ok (some .FORWARD)

/-- Method `Agent.decide_next_action`: the strict priority order is
gold-held (escape or retreat), glitter (grab), exploration, retreat. -/
def decide_next_action (a : Agent) (percept : Percept) :
    Except PyErr (Option Action × Agent) := do
  let a := { a with is_backtracking := false }
  if a.has_gold then
    if a.location = ⟨1, 1⟩ then .ok (some .CLIMB, a)
    else .ok (get_backtrack_action a)
  else if percept.glitter then .ok (some .GRAB_GOLD, a)
  else do
    let ea ← get_exploration_action a
    match ea with
    | some act => .ok (some act, a)
    | none => .ok (get_backtrack_action a)

end Agent

/-- Physical cell of the environment grid (`wumpus/environment/cell.py`). -/
structure Cell where
  has_pit : Bool := false
  has_wumpus : Bool := false
  has_gold : Bool := false
  has_agent : Bool := false
  has_wall : Bool := false
deriving DecidableEq, Repr

namespace Cell

/-- Method `Cell.place_pit` (guarded placement). -/
def place_pit (c : Cell) : Cell :=
  if c.has_wumpus || c.has_gold then c else { c with has_pit := true }

/-- Method `Cell.place_wumpus` (guarded placement). -/
def place_wumpus (c : Cell) : Cell :=
  if c.has_pit || c.has_gold then c else { c with has_wumpus := true }

/-- Method `Cell.place_gold` (guarded placement). -/
def place_gold (c : Cell) : Cell :=
  if c.has_pit || c.has_wumpus then c else { c with has_gold := true }

end Cell

/-- Size of the physical grid: `Environment.size` defaults to 4 and every
constructor path uses this default. -/
def envSize : Nat := 4

/-- Environment state (`wumpus/environment/environment.py`). -/
structure Environment where
  score : Int := 0
  grid : Fin envSize → Fin envSize → Cell

instance : DecidableEq Environment := fun a b =>
  decidable_of_iff (a.score = b.score ∧ a.grid = b.grid)
    (by cases a; cases b; simp)

namespace Environment

/-- Reading `self.grid[r][c]` of the 4×4 physical grid. -/
def getECell (env : Environment) (r c : Int) : Except PyErr Cell :=
  match pyIdx envSize r, pyIdx envSize c with
  | some i, some j => .ok (env.grid i j)
  | _, _ => .error .indexError

/-- Functional update of the physical grid at a Python index pair. -/
def modifyECell (env : Environment) (r c : Int) (f : Cell → Cell) :
    Except PyErr Environment :=
  match pyIdx envSize r, pyIdx envSize c with
  | some i, some j =>
      .ok { env with
              grid := fun i2 j2 =>
                if i2 = i ∧ j2 = j then f (env.grid i j) else env.grid i2 j2 }
  | _, _ => .error .indexError

/-- Grid of `__post_init__` before object placement: all cells empty, the
agent flag set at index (0,0). -/
def initialGrid : Fin envSize → Fin envSize → Cell := fun i j =>
  if i.val = 0 ∧ j.val = 0 then { has_agent := true } else {}

/-- Method `Environment._place_objects`, parametrised by the outcome of the
`random.sample` / `random.choice` draws.  The randomness contract is
captured by `PlacementChoices.Valid` below: sampled cells are distinct,
exclude the start cell `(0, 0)`, and later draws exclude earlier ones
because the source removes each drawn cell from `available_cells`. -/
structure PlacementChoices where
  wumpus_cells : List (Fin envSize × Fin envSize)
  pit_cells : List (Fin envSize × Fin envSize)
  gold_cell : Fin envSize × Fin envSize

/-- What `random.randint`, `random.sample` and `random.choice` guarantee
about the draws in `_place_objects`. -/
def PlacementChoices.Valid (ch : PlacementChoices) : Prop :=
  ch.wumpus_cells.Nodup ∧ ch.pit_cells.Nodup ∧
  (∀ x ∈ ch.wumpus_cells, x ≠ (⟨0, by decide⟩, ⟨0, by decide⟩)) ∧
  (∀ x ∈ ch.pit_cells, x ≠ (⟨0, by decide⟩, ⟨0, by decide⟩)) ∧
  ch.gold_cell ≠ (⟨0, by decide⟩, ⟨0, by decide⟩) ∧
  (∀ x ∈ ch.pit_cells, x ∉ ch.wumpus_cells) ∧
  ch.gold_cell ∉ ch.wumpus_cells ∧ ch.gold_cell ∉ ch.pit_cells

/-- Direct field assignments of `_place_objects` (no guards in the
source: `self.grid[r][c].has_wumpus = True` etc.). -/
def place_objects (env : Environment) (ch : PlacementChoices) : Environment :=
  let g1 := fun i j =>
    if (i, j) ∈ ch.wumpus_cells then { env.grid i j with has_wumpus := true }
    else env.grid i j
  let g2 := fun i j =>
    if (i, j) ∈ ch.pit_cells then { g1 i j with has_pit := true } else g1 i j
  let g3 := fun i j =>
    if (i, j) = ch.gold_cell then { g2 i j with has_gold := true } else g2 i j
  { env with grid := g3 }

/-- Constructor path `Environment()` = `__post_init__`: empty grid, agent
at (0,0), then random placement with draws `ch`. -/
def init (ch : PlacementChoices) : Environment :=
  place_objects { score := 0, grid := initialGrid } ch

/-- Method `Environment.get_percept`: cues for `location` (1-based), with
the carried-over bump and scream flags threaded through. -/
def get_percept (env : Environment) (location : Location)
    (bump scream : Bool) : Except PyErr Percept := do
  let row := location.row - 1
  let col := location.col - 1
  let deltas : List (Int × Int) := [(0, 1), (1, 0), (0, -1), (-1, 0)]
  let adjacent := deltas.filterMap fun d =>
    match strictIdx envSize (row + d.1), strictIdx envSize (col + d.2) with
    | some i, some j => some (i, j)
    | _, _ => none
  let stench := adjacent.any fun p => (env.grid p.1 p.2).has_wumpus
  let breeze := adjacent.any fun p => (env.grid p.1 p.2).has_pit
  let here ← getECell env row col
  .ok { stench := stench, breeze := breeze, glitter := here.has_gold,
        scream := scream, bump := bump }

/-- While-loop of the SHOOT_ARROW branch of `perform_action`; as in
`deleteWumpusLoop` the fuel of 16 is never exhausted. -/
def shootLoop (dr dc : Int) :
    Nat → Int → Int → Environment → Except PyErr (Bool × Option String × Int × Environment)
  | 0, _, _, env => .ok (true, some "화살이 빗나갔습니다.", -11, env)
  | fuel + 1, r, c, env =>
    if 0 ≤ r + dr ∧ r + dr < (envSize : Int) ∧ 0 ≤ c + dc ∧ c + dc < (envSize : Int) then do
      let cell ← getECell env (r + dr) (c + dc)
      if cell.has_wumpus then do
        let env2 ← modifyECell env (r + dr) (c + dc) fun cl => { cl with has_wumpus := false }
        .ok (true, some "Wumpus를 죽였습니다!", -11, env2)
      else shootLoop dr dc fuel (r + dr) (c + dc) env
    else .ok (true, some "화살이 빗나갔습니다.", -11, env)

/-- Method `Environment.perform_action`.  The action parameter is
`Option Action`: the controller passes `decide_next_action`'s result
straight through (with a `type: ignore`), and a Python `None` simply fails
every equality test and reaches the final default `return True, None, -1`.
The returned quadruple is (success, message, score_delta, new state);
score bookkeeping outside the returned delta is done by the controller. -/
def perform_action (env : Environment) (action : Option Action)
    (agent_location : Location) (agent_direction : Direction) :
    Except PyErr (Bool × Option String × Int × Environment) := do
  let old_row := agent_location.row - 1
  let old_col := agent_location.col - 1
  if action = some .FORWARD then
    let new_location := agent_location.move agent_direction
    let new_row := new_location.row - 1
    let new_col := new_location.col - 1
    if !(0 ≤ new_row ∧ new_row < (envSize : Int) ∧ 0 ≤ new_col ∧ new_col < (envSize : Int) : Prop) then
      .ok (false, some "벽에 부딪혔습니다.", -1, env)
    else do
      let env1 ← modifyECell env old_row old_col fun c => { c with has_agent := false }
      let env2 ← modifyECell env1 new_row new_col fun c => { c with has_agent := true }
      let cell ← getECell env2 new_row new_col
      if cell.has_wumpus then .ok (true, some "Wumpus에게 잡혔습니다!", -1001, env2)
      else if cell.has_pit then .ok (true, some "구덩이에 빠졌습니다!", -1001, env2)
      else .ok (true, none, -1, env2)
  else if action = some .SHOOT_ARROW then
    shootLoop agent_direction.delta.1 agent_direction.delta.2 16 old_row old_col env
  else if action = some .GRAB_GOLD then do
    let cell ← getECell env old_row old_col
    if cell.has_gold then do
      let env2 ← modifyECell env old_row old_col fun c => { c with has_gold := false }
      .ok (true, some "금을 획득했습니다!", 999, env2)
    else .ok (false, some "이 위치에 금이 없습니다.", -1, env)
  else if action = some .CLIMB then
    if old_row = 0 ∧ old_col = 0 then .ok (true, some "탈출에 성공했습니다!", -1, env)
    else .ok (false, some "시작 지점에서만 탈출할 수 있습니다.", -1, env)
  else .ok (true, none, -1, env)

/-- Method `Environment.is_valid_location`. -/
def is_valid_location (location : Location) : Bool :=
  0 ≤ location.row - 1 && location.row - 1 < (envSize : Int) &&
  0 ≤ location.col - 1 && location.col - 1 < (envSize : Int)

/-- Method `Environment.check_for_death`: wumpus or pit at the agent's
(1-based) location. -/
def check_for_death (env : Environment) (agent_location : Location) :
    Except PyErr Bool := do
  let cell ← getECell env (agent_location.row - 1) (agent_location.col - 1)
  if cell.has_wumpus then .ok true
  else if cell.has_pit then .ok true
  else .ok false

/-- Method `Environment.update_agent_position_in_grid` (both writes are
guarded by `is_valid_location`, so this is total). -/
def update_agent_position_in_grid (env : Environment)
    (old_location new_location : Location) : Environment :=
  let env1 :=
    if is_valid_location old_location then
      match modifyECell env (old_location.row - 1) (old_location.col - 1)
          (fun c => { c with has_agent := false }) with
      | .ok e => e
      | .error _ => env
    else env
  if is_valid_location new_location then
    match modifyECell env1 (new_location.row - 1) (new_location.col - 1)
        (fun c => { c with has_agent := true }) with
    | .ok e => e
    | .error _ => env1
  else env1

/-- One guarded placement in `set_map`, skipping out-of-range locations
(the source only prints a warning in that case). -/
def setMapPlace (env : Environment) (loc : Location) (f : Cell → Cell) :
    Environment :=
  if 1 ≤ loc.row ∧ loc.row ≤ (envSize : Int) ∧ 1 ≤ loc.col ∧ loc.col ≤ (envSize : Int) then
    match modifyECell env (loc.row - 1) (loc.col - 1) f with
    | .ok e => e
    | .error _ => env
  else env

/-- Method `Environment.set_map`: clear every cell, then place the given
wumpus, pit, gold and agent locations through the guarded `Cell` methods. -/
def set_map (env : Environment) (wumpus_locations pit_locations : List Location)
    (gold_location : Location) (agent_location : Location) : Environment :=
  let cleared : Environment :=
    { env with
        grid := fun i j =>
          { env.grid i j with
              has_wumpus := false, has_pit := false,
              has_gold := false, has_agent := false } }
  let e1 := wumpus_locations.foldl (fun e loc => setMapPlace e loc Cell.place_wumpus) cleared
  let e2 := pit_locations.foldl (fun e loc => setMapPlace e loc Cell.place_pit) e1
  let e3 := setMapPlace e2 gold_location Cell.place_gold
  setMapPlace e3 agent_location fun c => { c with has_agent := true }

end Environment

/-- Controller state (`wumpus/controller/controller.py`). -/
structure Controller where
  env : Environment
  agent : Agent := {}
  is_bump : Bool := false
  is_scream : Bool := false
  is_game_over : Bool := false
  total_steps : Int := 0
  messages : List String := []

namespace Controller

/-- Message formatting used by `_process_action`
(`f"Step {self.total_steps + 1}: {message}"`). -/
def stepMessage (n : Int) (m : String) : String :=
  "Step " ++ toString n ++ ": " ++ m

/-- Method `Controller._handle_death_and_respawn`: if the agent's current
location is lethal, mark it unsafe in the knowledge base, pop the path
stack back to the previous location, move the grid marker, revive the
agent, bump the turn counter and report `True`; otherwise report `False`. -/
def handle_death_and_respawn (c : Controller) :
    Except PyErr (Bool × Controller) := do
  let dead ← Environment.check_for_death c.env c.agent.location
  if dead then do
    let dead_at := c.agent.location
    let msgs := c.messages ++ ["에이전트가 " ++ toString (repr dead_at) ++ "에서 사망했습니다!"]
    let kb2 ← Knowledge_base.markUnsafe (pyIdx kbSize) c.agent.kb dead_at
    match c.agent.path_stack.getLast? with
    | none => .error .indexError
    | some target =>
      let agent2 : Agent :=
        { c.agent with
            kb := kb2, location := target,
            path_stack := c.agent.path_stack.dropLast, is_alive := true }
      let env2 := Environment.update_agent_position_in_grid c.env dead_at target
      .ok (true,
        { c with agent := agent2, env := env2, messages := msgs,
                 total_steps := c.total_steps + 1 })
  else .ok (false, c)

/-- Method `Controller._process_action`: resolve the action in the
environment, record bump/scream cues and the message, apply the score
delta, and on success apply the matching agent mutation.  Returns the
triple the source returns plus the new controller state. -/
def process_action (c : Controller) (action : Option Action) :
    Except PyErr (Bool × Bool × Bool × Controller) := do
  let r ← Environment.perform_action c.env action c.agent.location c.agent.direction
  let success := r.1
  let message := r.2.1
  let score_delta := r.2.2.1
  let env1 := r.2.2.2
  let is_bump := action = some .FORWARD ∧ message = some "벽에 부딪혔습니다."
  let is_scream := action = some .SHOOT_ARROW ∧ message = some "Wumpus를 죽였습니다!"
  let msgs :=
    match message with
    | some m => c.messages ++ [stepMessage (c.total_steps + 1) m]
    | none => c.messages
  let env2 := { env1 with score := env1.score + score_delta }
  let c1 : Controller := { c with env := env2, messages := msgs }
  let c2 : Controller :=
    if success then
      match action with
      | some .FORWARD => { c1 with agent := (Agent.move_forward c1.agent).2 }
      | some .TURN_LEFT => { c1 with agent := Agent.turn_left c1.agent }
      | some .TURN_RIGHT => { c1 with agent := Agent.turn_right c1.agent }
      | some .SHOOT_ARROW => { c1 with agent := (Agent.shoot_arrow c1.agent).2 }
      | some .GRAB_GOLD => { c1 with agent := { c1.agent with has_gold := true } }
      | some .CLIMB =>
          if c1.agent.location = ⟨1, 1⟩ then { c1 with is_game_over := true } else c1
      | none => c1
    else c1
  .ok (success, decide is_bump, decide is_scream, c2)

/-- Method `Controller.check_step_limit`: the source returns
`self.is_game_over` once `total_steps >= 200` and `not self.is_game_over`
below the ceiling. -/
def check_step_limit (c : Controller) : Bool :=
  if c.total_steps ≥ 200 then c.is_game_over else !c.is_game_over

/-- Method `Controller.step`: the per-turn sequence — game-over short
circuit, death recovery, perception, belief update, decision, action,
death check, step counting and the step-limit check. -/
def step (c : Controller) : Except PyErr (Bool × Controller) := do
  if c.is_game_over then .ok (false, c)
  else do
    let dr ← handle_death_and_respawn c
    if dr.1 then .ok (true, dr.2)
    else do
      let c := dr.2
      let percept ← Environment.get_percept c.env c.agent.location c.is_bump c.is_scream
      let agent1 ← Agent.update_state_with_percept c.agent percept
      let c := { c with agent := agent1 }
      let da ← Agent.decide_next_action c.agent percept
      let c := { c with agent := da.2 }
      let pr ← process_action c da.1
      let c := { pr.2.2.2 with is_bump := pr.2.1, is_scream := pr.2.2.1 }
      let dead2 ← Environment.check_for_death c.env c.agent.location
      let c :=
        if dead2 then { c with agent := { c.agent with is_alive := false } } else c
      let c := { c with total_steps := c.total_steps + 1 }
      .ok (check_step_limit c, c)

end Controller

/-- Projection of `Controller.step`'s boolean result (continue / stop),
used to state concrete evaluations without comparing whole controller
states. -/
def stepContinues (c : Controller) : Option Bool :=
  (Controller.step c).toOption.map Prod.fst

/-- Projection of the controller state after a successful `step`. -/
def stepState (c : Controller) : Option Controller :=
  (Controller.step c).toOption.map Prod.snd

/-- Cell of the knowledge grid addressed by a location through Python
indexing, with a default for unreachable out-of-range addresses (used only
in theorem statements about in-range locations). -/
def cellAtL (kb : Knowledge_base) (l : Location) : Knowledge_Cell :=
  match pyIdx kbSize l.row, pyIdx kbSize l.col with
  | some i, some j => kb.grid i j
  | _, _ => {}

/-- Combined risk of the cell addressed by a location (the sort key of
`get_adjacent_cells`). -/
def riskAt (kb : Knowledge_base) (l : Location) : Int :=
  (cellAtL kb l).possible_wumpus + (cellAtL kb l).possible_pit

/-- In-bounds predicate for the 6×6 knowledge grid (indices that Python
serves without wrap-around). -/
def inb6 (l : Location) : Prop :=
  (0 ≤ l.row ∧ l.row < (kbSize : Int)) ∧ (0 ≤ l.col ∧ l.col < (kbSize : Int))

/-- Index coercions that serve every in-bounds index directly; both
`pyIdx kbSize` and `strictIdx kbSize` are such. -/
def GoodIdx (idx : KBIdx) : Prop :=
  ∀ (i : Int) (h : 0 ≤ i ∧ i < (kbSize : Int)), idx i = some ⟨i.toNat, by omega⟩

/-- Latch invariant of claim C7: a ruled-out hazard has risk zero. -/
def latchInv (c : Knowledge_Cell) : Prop :=
  (c.no_wumpus_for_sure = true → c.possible_wumpus = 0) ∧
  (c.no_pit_for_sure = true → c.possible_pit = 0)

/-- Visited-cell invariant of claim C8: a visited cell is safe and has
both risk counters zero. -/
def visitedInv (c : Knowledge_Cell) : Prop :=
  c.visited = true → (c.safe = true ∧ c.possible_wumpus = 0 ∧ c.possible_pit = 0)

/-- Physical-cell invariant of claim C10. -/
def cellInvE (c : Cell) : Prop :=
  ¬(c.has_wumpus = true ∧ c.has_pit = true) ∧
  (c.has_gold = true → c.has_wumpus = false ∧ c.has_pit = false)

/-- Environment-wide invariant of claim C10. -/
def envInv (e : Environment) : Prop := ∀ i j, cellInvE (e.grid i j)

/-- Reachable environment states: random initial placement, `set_map`,
and successful `perform_action` transitions. -/
inductive EnvReachable : Environment → Prop where
  | init (ch : Environment.PlacementChoices) (h : ch.Valid) :
      EnvReachable (Environment.init ch)
  | setMap (e : Environment) (w p : List Location) (g a : Location) :
      EnvReachable e → EnvReachable (Environment.set_map e w p g a)
  | act (e : Environment) (action : Option Action) (loc : Location)
      (d : Direction) (r : Bool × Option String × Int × Environment) :
      EnvReachable e → Environment.perform_action e action loc d = .ok r →
      EnvReachable r.2.2.2

/-- Environment with every cell empty (used for concrete evaluations). -/
def envOpen : Environment := { grid := fun _ _ => {} }

/-- Environment with a pit at the 1-based location (2,1). -/
def envPitAt21 : Environment :=
  { grid := fun i j => if i.val = 1 ∧ j.val = 0 then { has_pit := true } else {} }

/-- Knowledge base whose only non-default cell is (1,1), marked visited
and safe. -/
def kbVisited11 : Knowledge_base :=
  ⟨fun i j =>
    if i.val = 1 ∧ j.val = 1 then { visited := true, safe := true } else {}⟩

/-- Knowledge base whose only non-default cell is (2,1), marked visited
and safe. -/
def kbVisited21 : Knowledge_base :=
  ⟨fun i j =>
    if i.val = 2 ∧ j.val = 1 then { visited := true, safe := true } else {}⟩

/-- Knowledge base with two unsafe cells (1,2) and (1,3), each carrying
positive wumpus risk (the claim C6 counterexample input). -/
def kbScream : Knowledge_base :=
  ⟨fun i j =>
    if i.val = 1 ∧ (j.val = 2 ∨ j.val = 3) then
      { isUnsafe := true, possible_wumpus := 1 }
    else {}⟩

/-- Result of the first `update_with_percept` on a fresh knowledge base at
(1,1) with an all-false percept (used by the C6 witness). -/
def kbAfter11 : Knowledge_base :=
  ⟨fun i j =>
    if i.val = 1 ∧ j.val = 1 then { visited := true, safe := true }
    else if (i.val = 0 ∧ j.val = 1) ∨ (i.val = 1 ∧ j.val = 2) ∨
        (i.val = 2 ∧ j.val = 1) ∨ (i.val = 1 ∧ j.val = 0) then
      { no_pit_for_sure := true, no_wumpus_for_sure := true, safe := true }
    else {}⟩

/-- Percept carrying only the scream cue. -/
def screamPercept : Percept := { scream := true }

/-- First `update_with_percept` call of the C6 counterexample. -/
def c6first : Except PyErr Knowledge_base :=
  Knowledge_base.update_with_percept (pyIdx kbSize) kbScream ⟨1, 1⟩ .EAST screamPercept

/-- Second, identical `update_with_percept` call of the C6 counterexample,
run on the state left by the first. -/
def c6second : Except PyErr Knowledge_base :=
  c6first.bind fun kb1 =>
    Knowledge_base.update_with_percept (pyIdx kbSize) kb1 ⟨1, 1⟩ .EAST screamPercept

/-- Wumpus-risk counter of a (possibly failed) knowledge-base computation
at a grid index. -/
def pwAt (e : Except PyErr Knowledge_base) (i j : Fin kbSize) : Option Int :=
  e.toOption.map fun kb => (kb.grid i j).possible_wumpus

/-- Visited flag of a (possibly failed) knowledge-base computation at a
grid index. -/
def visitedAt (e : Except PyErr Knowledge_base) (i j : Fin kbSize) : Option Bool :=
  e.toOption.map fun kb => (kb.grid i j).visited

/-- Controller state one turn short of the 200-step ceiling, with the gold
in hand at the start cell and the start cell already visited: the next
`step` climbs out successfully while reaching the ceiling (the C2 failing
input). -/
def c2state : Controller :=
  { env := envOpen,
    agent := { location := ⟨1, 1⟩, has_gold := true, kb := kbVisited11 },
    total_steps := 199 }

/-- Controller state in which retreat is required (gold held away from the
start) with an empty path stack (the C3 counterexample input). -/
def c3state : Controller :=
  { env := envOpen,
    agent := { location := ⟨2, 1⟩, has_gold := true, kb := kbVisited21,
               path_stack := [] },
    total_steps := 0 }

/-- Controller state whose agent stands on a pit with path-stack top
(1,1) (the C5 witness input). -/
def c5state : Controller :=
  { env := envPitAt21,
    agent := { location := ⟨2, 1⟩, path_stack := [⟨1, 1⟩] } }

instance : DecidableEq Agent := fun a b =>
  decidable_of_iff
    (a.is_backtracking = b.is_backtracking ∧ a.is_alive = b.is_alive ∧
     a.location = b.location ∧ a.direction = b.direction ∧
     a.has_arrow = b.has_arrow ∧ a.has_gold = b.has_gold ∧
     a.kb = b.kb ∧ a.path_stack = b.path_stack)
    (by cases a; cases b; simp)

instance : DecidableEq Controller := fun a b =>
  decidable_of_iff
    (a.env = b.env ∧ a.agent = b.agent ∧ a.is_bump = b.is_bump ∧
     a.is_scream = b.is_scream ∧ a.is_game_over = b.is_game_over ∧
     a.total_steps = b.total_steps ∧ a.messages = b.messages)
    (by cases a; cases b; simp)

instance {e a : Type} [DecidableEq e] [DecidableEq a] : DecidableEq (Except e a) := fun x y =>
  match x, y with
  | .ok v, .ok w => decidable_of_iff (v = w) (by simp)
  | .error v, .error w => decidable_of_iff (v = w) (by simp)
  | .ok _, .error _ => isFalse (by simp)
  | .error _, .ok _ => isFalse (by simp)

/-- Default-constructed agent, as built by `Controller.start_game`. -/
def agentFresh : Agent := {}

/-- Percept with every cue absent. -/
def perceptNone : Percept := {}

/-- Claim C1 (status: code_bug).  `Agent.update_state_with_percept` is
supposed to apply `Knowledge_base.update_with_percept` exactly on the
first visit to the current cell; instead, on any turn whose current cell
is unvisited the mis-arity call
`self.kb.update_with_percept(self.location, percept)` (the three-parameter
method is given two arguments) raises `TypeError`, and when the bump cue
is set the swapped-argument call
`self.kb.mark_wall(self.location, percept, self.direction)` raises
`AttributeError` inside `mark_wall`.  This theorem evaluates the model at
the failing inputs: a fresh agent on its unvisited start cell. -/
theorem C1_update_state_crashes :
    Agent.update_state_with_percept agentFresh perceptNone = .error .typeError ∧
    Agent.update_state_with_percept agentFresh { bump := true } = .error .attributeError := by
  decide

/-- Claim C2 (status: code_bug).  `Controller.check_step_limit` returns
`self.is_game_over` instead of the documented `False` once
`total_steps >= 200`.  Concretely: from `c2state` (199 steps taken, gold
held at the start cell) the next `step` performs a successful CLIMB,
setting `is_game_over`, reaches `total_steps = 200`, and then returns
True — the game is reported as continuing at the ceiling, contradicting
the claim (and the method's own docstring) that the step limit forces a
False return regardless of outcome. -/
theorem C2_step_limit_returns_game_over :
    stepContinues c2state = some true ∧
    (stepState c2state).map Controller.total_steps = some 200 ∧
    (stepState c2state).map Controller.is_game_over = some true := by
  decide

/-- Claim C3, counterexample.  In `c3state` the decision policy delegates
to the backtrack procedure (gold held away from the start) with an empty
path stack; the policy yields no action, yet `Environment.perform_action`
resolves that no-action through its final default branch as a SUCCESSFUL
action (success flag true, score −1), and `Controller.step` returns true:
the turn loop continues instead of ending in a loss. -/
theorem C3_exhausted_retreat_loops :
    (Agent.decide_next_action c3state.agent perceptNone).toOption.map Prod.fst =
      some none ∧
    Environment.perform_action envOpen none ⟨2, 1⟩ .NORTH =
      .ok (true, none, -1, envOpen) ∧
    stepContinues c3state = some true := by
  decide

/-- Claim C3, amended: when retreat is required and the path stack is
empty, `get_backtrack_action` returns no action and leaves the agent
unchanged; the controller still hands the `None` to the environment,
whose action dispatch falls through to the always-succeed default branch
(success, no message, score −1, state unchanged); the turn loop therefore
continues and retreat exhaustion is never surfaced as a terminal loss —
termination comes only from the 200-step ceiling. -/
theorem C3_amended_exhausted_retreat (a : Agent) (h : a.path_stack = []) :
    (Agent.get_backtrack_action a).1 = none ∧
    (Agent.get_backtrack_action a).2 = a ∧
    ∀ (env : Environment) (loc : Location) (d : Direction),
      Environment.perform_action env none loc d = .ok (true, none, -1, env) := by
  refine ⟨?_, ?_, ?_⟩
  · simp [Agent.get_backtrack_action, h]
  · simp [Agent.get_backtrack_action, h]
  · intro env loc d
    simp [Environment.perform_action]

/-- Witness for the amended claim C3, at the concrete exhausted state. -/
theorem C3_amended_exhausted_retreat_witness :
    (Agent.get_backtrack_action c3state.agent).1 = none ∧
    Environment.perform_action envOpen none ⟨2, 1⟩ .SOUTH =
      .ok (true, none, -1, envOpen) :=
  ⟨(C3_amended_exhausted_retreat c3state.agent rfl).1,
   (C3_amended_exhausted_retreat c3state.agent rfl).2.2 envOpen ⟨2, 1⟩ .SOUTH⟩

/-- Concrete placement draw used by the C10 witness. -/
def chW : Environment.PlacementChoices :=
  { wumpus_cells := [(⟨1, by decide⟩, ⟨1, by decide⟩)],
    pit_cells := [(⟨2, by decide⟩, ⟨2, by decide⟩)],
    gold_cell := (⟨3, by decide⟩, ⟨3, by decide⟩) }

/-- Per-cell step relation used for claim C7: the latch invariant is
propagated and both ruled-out latches are monotone. -/
def latchStep (c c2 : Knowledge_Cell) : Prop :=
  (latchInv c → latchInv c2) ∧
  (c.no_wumpus_for_sure = true → c2.no_wumpus_for_sure = true) ∧
  (c.no_pit_for_sure = true → c2.no_pit_for_sure = true)

/-- Per-cell step relation used for claim C8: the visited-cell invariant
is propagated. -/
def visitedStep (c c2 : Knowledge_Cell) : Prop :=
  visitedInv c → visitedInv c2

/-- Result of `markUnsafe` on a fresh knowledge base at (1,1), used as the
concrete operation instance in the C7 and C8 witnesses. -/
def kbU : Knowledge_base :=
  ⟨fun i j => if i.val = 1 ∧ j.val = 1 then { isUnsafe := true } else {}⟩

/-- Bind of a successful `Except` computation reduces to the continuation. -/
theorem ebind_ok {e a b : Type} (x : a) (f : a → Except e b) :
    (Except.ok x >>= f) = f x := rfl

/-- Bind of a failed `Except` computation propagates the error. -/
theorem ebind_err {e a b : Type} (err : e) (f : a → Except e b) :
    ((Except.error err : Except e a) >>= f) = Except.error err := rfl

/-- Bounds under which Python indexing into a length-`n` list succeeds. -/
theorem pyIdx_isSome_of (n : Nat) (i : Int) (h1 : -(n : Int) ≤ i) (h2 : i < n) :
    ∃ k, pyIdx n i = some k := by
  unfold pyIdx
  split
  · exact ⟨_, rfl⟩
  · split
    · exact ⟨_, rfl⟩
    · omega

/-- Successful Python indexing implies the index was within `-n … n-1`. -/
theorem pyIdx_bounds {n : Nat} {i : Int} {k : Fin n} (h : pyIdx n i = some k) :
    -(n : Int) ≤ i ∧ i < n := by
  unfold pyIdx at h
  split at h
  · omega
  · split at h
    · omega
    · exact absurd h (by simp)

/-- Claim C5 (status: confirmed).  When the agent's location is lethal at
the start of a turn and the path stack is non-empty with top element `P`,
`Controller._handle_death_and_respawn` marks the death cell unsafe in the
knowledge base, moves the agent to `P`, restores `is_alive`, shortens the
path stack by exactly one entry, increments the turn counter, and returns
True — and `Controller.step` consequently ends the turn there, with no
perception or action. -/
theorem C5_death_recovery (c : Controller) (rest : List Location) (P : Location)
    (hdead : Environment.check_for_death c.env c.agent.location = .ok true)
    (hstack : c.agent.path_stack = rest ++ [P])
    (hgo : c.is_game_over = false) :
    ∃ c', Controller.handle_death_and_respawn c = .ok (true, c') ∧
      c'.agent.location = P ∧
      (cellAtL c'.agent.kb c.agent.location).isUnsafe = true ∧
      c'.agent.is_alive = true ∧
      c'.agent.path_stack = rest ∧
      c'.total_steps = c.total_steps + 1 ∧
      Controller.step c = .ok (true, c') := by
  have hb := hdead
  unfold Environment.check_for_death Environment.getECell at hb
  rcases h1 : pyIdx envSize (c.agent.location.row - 1) with _ | k1 <;>
    rcases h2 : pyIdx envSize (c.agent.location.col - 1) with _ | k2 <;>
    rw [h1, h2] at hb
  · exact absurd hb (by simp [ebind_err])
  · exact absurd hb (by simp [ebind_err])
  · exact absurd hb (by simp [ebind_err])
  have hr := pyIdx_bounds h1
  have hc := pyIdx_bounds h2
  obtain ⟨i6, hi6⟩ := pyIdx_isSome_of kbSize c.agent.location.row
    (by unfold envSize at hr; unfold kbSize; omega)
    (by unfold envSize at hr; unfold kbSize; omega)
  obtain ⟨j6, hj6⟩ := pyIdx_isSome_of kbSize c.agent.location.col
    (by unfold envSize at hc; unfold kbSize; omega)
    (by unfold envSize at hc; unfold kbSize; omega)
  have hmu : Knowledge_base.markUnsafe (pyIdx kbSize) c.agent.kb c.agent.location =
      .ok ⟨fun i2 j2 =>
        if i2 = i6 ∧ j2 = j6 then
          { c.agent.kb.grid i6 j6 with isUnsafe := true }
        else c.agent.kb.grid i2 j2⟩ := by
    unfold Knowledge_base.markUnsafe modifyCellI
    rw [hi6, hj6]
  have hh : Controller.handle_death_and_respawn c = .ok (true,
      { c with
          agent :=
            { c.agent with
                kb := ⟨fun i2 j2 =>
                  if i2 = i6 ∧ j2 = j6 then
                    { c.agent.kb.grid i6 j6 with isUnsafe := true }
                  else c.agent.kb.grid i2 j2⟩,
                location := P,
                path_stack := rest,
                is_alive := true },
          env := Environment.update_agent_position_in_grid c.env c.agent.location P,
          messages := c.messages ++
            ["에이전트가 " ++ toString (repr c.agent.location) ++ "에서 사망했습니다!"],
          total_steps := c.total_steps + 1 }) := by
    unfold Controller.handle_death_and_respawn
    simp only [hdead, ebind_ok, eq_self_iff_true, if_true, hmu, hstack,
      List.getLast?_concat, List.dropLast_concat]
  refine ⟨_, hh, rfl, ?_, rfl, rfl, rfl, ?_⟩
  · simp only [cellAtL, hi6, hj6, eq_self_iff_true, and_self, if_true]
  · unfold Controller.step
    rw [hgo]
    rw [if_neg (show ¬(false = true) by simp)]
    rw [hh, ebind_ok]
    simp [hgo]

/-- Witness for claim C5 at a concrete state: a pit under the agent at
(2,1) with path-stack top (1,1). -/
theorem C5_death_recovery_witness :
    Environment.check_for_death c5state.env c5state.agent.location = .ok true ∧
    ∃ c', Controller.handle_death_and_respawn c5state = .ok (true, c') ∧
      c'.agent.location = (⟨1, 1⟩ : Location) ∧
      (cellAtL c'.agent.kb c5state.agent.location).isUnsafe = true ∧
      c'.agent.is_alive = true ∧
      c'.agent.path_stack = [] ∧
      c'.total_steps = c5state.total_steps + 1 ∧
      Controller.step c5state = .ok (true, c') :=
  ⟨by decide, C5_death_recovery c5state [] ⟨1, 1⟩ (by decide) rfl rfl⟩

/-- Preservation of a per-cell relation by one functional cell update. -/
theorem preservesR_modify {R : Knowledge_Cell → Knowledge_Cell → Prop}
    (hrefl : ∀ c, R c c) {f : Knowledge_Cell → Knowledge_Cell}
    (hf : ∀ c, R c (f c)) {idx : KBIdx} {kb kb' : Knowledge_base} {r cc : Int}
    (h : modifyCellI idx kb r cc f = .ok kb') :
    ∀ i j, R (kb.grid i j) (kb'.grid i j) := by
  intro i j
  unfold modifyCellI at h
  rcases h1 : idx r with _ | ii <;> rcases h2 : idx cc with _ | jj <;>
    rw [h1, h2] at h
  · exact absurd h (by simp)
  · exact absurd h (by simp)
  · exact absurd h (by simp)
  injection h with h
  subst h
  show R (kb.grid i j) (if i = ii ∧ j = jj then f (kb.grid ii jj) else kb.grid i j)
  split
  · next hij =>
      obtain ⟨rfl, rfl⟩ := hij
      exact hf _
  · exact hrefl _

/-- Preservation of a per-cell relation by the `_apply_breeze_and_stench`
loop. -/
theorem preservesR_applyCellsAux {R : Knowledge_Cell → Knowledge_Cell → Prop}
    (hrefl : ∀ c, R c c) (htrans : ∀ a b c, R a b → R b c → R a c)
    (idx : KBIdx) (p : Percept)
    (hf : ∀ c, R c (Knowledge_base.applyCellPercept p c)) :
    ∀ (ls : List Location) (kb kb' : Knowledge_base),
      Knowledge_base.applyCellsAux idx p ls kb = .ok kb' →
      ∀ i j, R (kb.grid i j) (kb'.grid i j) := by
  intro ls
  induction ls with
  | nil =>
      intro kb kb' h i j
      unfold Knowledge_base.applyCellsAux at h
      injection h with h
      subst h
      exact hrefl _
  | cons l rest ih =>
      intro kb kb' h i j
      unfold Knowledge_base.applyCellsAux at h
      rcases hm : modifyCellI idx kb l.row l.col
          (Knowledge_base.applyCellPercept p) with e | kb2 <;> rw [hm] at h
      · rw [ebind_err] at h
        exact absurd h (by simp)
      · rw [ebind_ok] at h
        exact htrans _ _ _ (preservesR_modify hrefl hf hm i j) (ih kb2 kb' h i j)

/-- Preservation of a per-cell relation by the `delete_wumpus` walk. -/
theorem preservesR_deleteLoop {R : Knowledge_Cell → Knowledge_Cell → Prop}
    (hrefl : ∀ c, R c c)
    (hf : ∀ c, R c { c with isUnsafe := false, safe := true, possible_wumpus := 0 })
    (idx : KBIdx) (dr dc : Int) :
    ∀ (fuel : Nat) (r cc : Int) (kb kb' : Knowledge_base),
      Knowledge_base.deleteWumpusLoop idx dr dc fuel r cc kb = .ok kb' →
      ∀ i j, R (kb.grid i j) (kb'.grid i j) := by
  intro fuel
  induction fuel with
  | zero =>
      intro r cc kb kb' h i j
      unfold Knowledge_base.deleteWumpusLoop at h
      injection h with h
      subst h
      exact hrefl _
  | succ n ih =>
      intro r cc kb kb' h i j
      unfold Knowledge_base.deleteWumpusLoop at h
      split at h
      · rcases hg : getCellI idx kb (r + dr) (cc + dc) with e | cl <;> rw [hg] at h
        · rw [ebind_err] at h
          exact absurd h (by simp)
        · rw [ebind_ok] at h
          split at h
          · exact preservesR_modify hrefl hf h i j
          · exact ih _ _ _ _ h i j
      · injection h with h
        subst h
        exact hrefl _

/-- Preservation of a per-cell relation by the
`mark_no_wumpus_along_direction` walk. -/
theorem preservesR_noWumpusLoop {R : Knowledge_Cell → Knowledge_Cell → Prop}
    (hrefl : ∀ c, R c c) (htrans : ∀ a b c, R a b → R b c → R a c)
    (hf : ∀ c, R c { c with possible_wumpus := 0 })
    (idx : KBIdx) (dr dc : Int) :
    ∀ (fuel : Nat) (cur : Location) (kb kb' : Knowledge_base),
      Knowledge_base.markNoWumpusLoop idx dr dc fuel cur kb = .ok kb' →
      ∀ i j, R (kb.grid i j) (kb'.grid i j) := by
  intro fuel
  induction fuel with
  | zero =>
      intro cur kb kb' h i j
      unfold Knowledge_base.markNoWumpusLoop at h
      injection h with h
      subst h
      exact hrefl _
  | succ n ih =>
      intro cur kb kb' h i j
      unfold Knowledge_base.markNoWumpusLoop at h
      split at h
      · injection h with h
        subst h
        exact hrefl _
      · rcases hm : modifyCellI idx kb (cur.row + dr) (cur.col + dc)
            (fun c => { c with possible_wumpus := 0 }) with e | kb2 <;> rw [hm] at h
        · rw [ebind_err] at h
          exact absurd h (by simp)
        · rw [ebind_ok] at h
          exact htrans _ _ _ (preservesR_modify hrefl hf hm i j) (ih _ _ _ h i j)

/-- Preservation of a per-cell relation by `mark_wall`. -/
theorem preservesR_mark_wall {R : Knowledge_Cell → Knowledge_Cell → Prop}
    (hrefl : ∀ c, R c c)
    (hf : ∀ c, R c { c with wall := true, possible_pit := 0, possible_wumpus := 0 })
    (idx : KBIdx) (loc : Location) (d : Direction) (p : Percept) :
    ∀ (kb kb' : Knowledge_base),
      Knowledge_base.mark_wall idx kb loc d p = .ok kb' →
      ∀ i j, R (kb.grid i j) (kb'.grid i j) := by
  intro kb kb' h i j
  unfold Knowledge_base.mark_wall at h
  split at h
  · rcases hg : getCellI idx kb (loc.row + d.delta.1) (loc.col + d.delta.2)
        with e | cl <;> rw [hg] at h
    · rw [ebind_err] at h
      exact absurd h (by simp)
    · rw [ebind_ok] at h
      split at h
      · exact preservesR_modify hrefl hf h i j
      · injection h with h
        subst h
        exact hrefl _
  · injection h with h
    subst h
    exact hrefl _

/-- Preservation of a per-cell relation by `delete_wumpus`. -/
theorem preservesR_delete_wumpus {R : Knowledge_Cell → Knowledge_Cell → Prop}
    (hrefl : ∀ c, R c c)
    (hf : ∀ c, R c { c with isUnsafe := false, safe := true, possible_wumpus := 0 })
    (idx : KBIdx) (loc : Location) (d : Direction) (p : Percept) :
    ∀ (kb kb' : Knowledge_base),
      Knowledge_base.delete_wumpus idx kb loc d p = .ok kb' →
      ∀ i j, R (kb.grid i j) (kb'.grid i j) := by
  intro kb kb' h i j
  unfold Knowledge_base.delete_wumpus at h
  split at h
  · exact preservesR_deleteLoop hrefl hf idx _ _ _ _ _ _ _ h i j
  · injection h with h
    subst h
    exact hrefl _

/-- Preservation of a per-cell relation by `update_with_percept`. -/
theorem preservesR_update {R : Knowledge_Cell → Knowledge_Cell → Prop}
    (hrefl : ∀ c, R c c) (htrans : ∀ a b c, R a b → R b c → R a c)
    (hfdel : ∀ c, R c { c with isUnsafe := false, safe := true, possible_wumpus := 0 })
    (hfwall : ∀ c, R c { c with wall := true, possible_pit := 0, possible_wumpus := 0 })
    (hfcur : ∀ c, R c { c with visited := true, safe := true,
                               possible_pit := 0, possible_wumpus := 0 })
    (idx : KBIdx) (loc : Location) (d : Direction) (p : Percept)
    (hfapply : ∀ c, R c (Knowledge_base.applyCellPercept p c)) :
    ∀ (kb kb' : Knowledge_base),
      Knowledge_base.update_with_percept idx kb loc d p = .ok kb' →
      ∀ i j, R (kb.grid i j) (kb'.grid i j) := by
  intro kb kb' h i j
  unfold Knowledge_base.update_with_percept at h
  rcases hs : (if p.scream = true then
      Knowledge_base.delete_wumpus idx kb loc d p else .ok kb) with e | kb1 <;>
    rw [hs] at h
  · rw [ebind_err] at h
    exact absurd h (by simp)
  rw [ebind_ok] at h
  have step1 : ∀ i j, R (kb.grid i j) (kb1.grid i j) := by
    intro i j
    split at hs
    · exact preservesR_delete_wumpus hrefl hfdel idx loc d p _ _ hs i j
    · injection hs with hs
      subst hs
      exact hrefl _
  rcases hw : (if p.bump = true then
      Knowledge_base.mark_wall idx kb1 loc d p else .ok kb1) with e | kb2 <;>
    rw [hw] at h
  · rw [ebind_err] at h
    exact absurd h (by simp)
  rw [ebind_ok] at h
  have step2 : ∀ i j, R (kb1.grid i j) (kb2.grid i j) := by
    intro i j
    split at hw
    · exact preservesR_mark_wall hrefl hfwall idx loc d p _ _ hw i j
    · injection hw with hw
      subst hw
      exact hrefl _
  rcases hg : getCellI idx kb2 loc.row loc.col with e | cl <;> rw [hg] at h
  · rw [ebind_err] at h
    exact absurd h (by simp)
  rw [ebind_ok] at h
  have step3 : ∀ i j, R (kb2.grid i j) (kb'.grid i j) := by
    intro i j
    split at h
    · rcases hm : Knowledge_base.mark_current_as_visited_and_safe idx kb2 loc
          with e | kb3 <;> rw [hm] at h
      · rw [ebind_err] at h
        exact absurd h (by simp)
      · rw [ebind_ok] at h
        rcases hv : Knowledge_base.get_valid_adjacent_cells idx kb3 loc
            with e | valid <;> rw [hv] at h
        · rw [ebind_err] at h
          exact absurd h (by simp)
        · rw [ebind_ok] at h
          refine htrans _ _ _ (preservesR_modify hrefl hfcur hm i j) ?_
          exact preservesR_applyCellsAux hrefl htrans idx p hfapply valid kb3 kb' h i j
    · injection h with h
      subst h
      exact hrefl _
  exact htrans _ _ _ (step1 i j) (htrans _ _ _ (step2 i j) (step3 i j))

/-- Preservation of a per-cell relation by `markUnsafe`. -/
theorem preservesR_markUnsafe {R : Knowledge_Cell → Knowledge_Cell → Prop}
    (hrefl : ∀ c, R c c)
    (hf : ∀ c, R c { c with isUnsafe := true })
    (idx : KBIdx) (loc : Location) :
    ∀ (kb kb' : Knowledge_base),
      Knowledge_base.markUnsafe idx kb loc = .ok kb' →
      ∀ i j, R (kb.grid i j) (kb'.grid i j) := by
  intro kb kb' h i j
  unfold Knowledge_base.markUnsafe at h
  exact preservesR_modify hrefl hf h i j

/-- Application of the per-neighbour percept rule preserves the latch
invariant and keeps both latches monotone. -/
theorem latchStep_apply (p : Percept) (c : Knowledge_Cell) :
    latchStep c (Knowledge_base.applyCellPercept p c) := by
  unfold latchStep latchInv Knowledge_base.applyCellPercept
  rcases c with ⟨v, pw, pp, npf, nwf, sf, us, wl⟩
  rcases p with ⟨st, br, gl, sc, bu⟩
  cases v <;> cases st <;> cases br <;> cases npf <;> cases nwf <;> simp_all

/-- Application of the per-neighbour percept rule preserves the
visited-cell invariant. -/
theorem visitedStep_apply (p : Percept) (c : Knowledge_Cell) :
    visitedStep c (Knowledge_base.applyCellPercept p c) := by
  unfold visitedStep visitedInv Knowledge_base.applyCellPercept
  rcases c with ⟨v, pw, pp, npf, nwf, sf, us, wl⟩
  rcases p with ⟨st, br, gl, sc, bu⟩
  cases v <;> cases st <;> cases br <;> cases npf <;> cases nwf <;> simp_all

/-- Claim C7 (status: confirmed).  On a fresh grid every cell satisfies
the latch invariant (a ruled-out hazard has counter zero), and every
knowledge-base operation — `update_with_percept`, `mark_wall`,
`mark_unsafe`, `delete_wumpus`, `mark_no_wumpus_along_direction` — both
preserves the invariant per cell and never clears a latch, so once
`no_wumpus_for_sure` (resp. `no_pit_for_sure`) holds, `possible_wumpus`
(resp. `possible_pit`) is zero and stays zero after every subsequent
operation, even when a later observation carries the hazard cue. -/
theorem C7_ruled_out_latch (kb kb' : Knowledge_base) (loc : Location)
    (d : Direction) (p : Percept) (i j : Fin kbSize) :
    latchInv (freshKB.grid i j) ∧
    ((Knowledge_base.update_with_percept (pyIdx kbSize) kb loc d p = .ok kb' ∨
      Knowledge_base.mark_wall (pyIdx kbSize) kb loc d p = .ok kb' ∨
      Knowledge_base.markUnsafe (pyIdx kbSize) kb loc = .ok kb' ∨
      Knowledge_base.delete_wumpus (pyIdx kbSize) kb loc d p = .ok kb' ∨
      Knowledge_base.mark_no_wumpus_along_direction (pyIdx kbSize) kb loc d = .ok kb') →
      latchStep (kb.grid i j) (kb'.grid i j)) := by
  have hrefl : ∀ c, latchStep c c := fun c => ⟨id, id, id⟩
  have htrans : ∀ a b c, latchStep a b → latchStep b c → latchStep a c :=
    fun a b c h1 h2 =>
      ⟨fun h => h2.1 (h1.1 h), fun h => h2.2.1 (h1.2.1 h), fun h => h2.2.2 (h1.2.2 h)⟩
  have hfdel : ∀ c, latchStep c
      { c with isUnsafe := false, safe := true, possible_wumpus := 0 } :=
    fun c => ⟨fun h => ⟨fun _ => rfl, h.2⟩, id, id⟩
  have hfwall : ∀ c, latchStep c
      { c with wall := true, possible_pit := 0, possible_wumpus := 0 } :=
    fun c => ⟨fun _ => ⟨fun _ => rfl, fun _ => rfl⟩, id, id⟩
  have hfcur : ∀ c, latchStep c
      { c with visited := true, safe := true, possible_pit := 0, possible_wumpus := 0 } :=
    fun c => ⟨fun _ => ⟨fun _ => rfl, fun _ => rfl⟩, id, id⟩
  have hfus : ∀ c, latchStep c { c with isUnsafe := true } := fun c => ⟨id, id, id⟩
  have hfnw : ∀ c, latchStep c { c with possible_wumpus := 0 } :=
    fun c => ⟨fun h => ⟨fun _ => rfl, h.2⟩, id, id⟩
  refine ⟨⟨fun _ => rfl, fun _ => rfl⟩, fun hop => ?_⟩
  rcases hop with h | h | h | h | h
  · exact preservesR_update hrefl htrans hfdel hfwall hfcur (pyIdx kbSize)
      loc d p (latchStep_apply p) kb kb' h i j
  · exact preservesR_mark_wall hrefl hfwall (pyIdx kbSize) loc d p kb kb' h i j
  · exact preservesR_markUnsafe hrefl hfus (pyIdx kbSize) loc kb kb' h i j
  · exact preservesR_delete_wumpus hrefl hfdel (pyIdx kbSize) loc d p kb kb' h i j
  · exact preservesR_noWumpusLoop hrefl htrans hfnw (pyIdx kbSize) _ _ 16 loc kb kb' h i j

/-- Witness for claim C7: the latch invariant holds on the fresh grid and
is carried across a concrete `markUnsafe` call. -/
theorem C7_ruled_out_latch_witness :
    latchInv (freshKB.grid ⟨1, by decide⟩ ⟨1, by decide⟩) ∧
    latchStep (freshKB.grid ⟨1, by decide⟩ ⟨1, by decide⟩)
      (kbU.grid ⟨1, by decide⟩ ⟨1, by decide⟩) :=
  ⟨(C7_ruled_out_latch freshKB kbU ⟨1, 1⟩ .NORTH {} ⟨1, by decide⟩ ⟨1, by decide⟩).1,
   (C7_ruled_out_latch freshKB kbU ⟨1, 1⟩ .NORTH {} ⟨1, by decide⟩ ⟨1, by decide⟩).2
     (Or.inr (Or.inr (Or.inl (by decide))))⟩

/-- Claim C8 (status: confirmed).  On a fresh grid every cell satisfies
the visited-cell invariant (visited implies safe and both risk counters
zero), and every knowledge-base operation preserves it per cell. -/
theorem C8_visited_invariant (kb kb' : Knowledge_base) (loc : Location)
    (d : Direction) (p : Percept) (i j : Fin kbSize) :
    visitedInv (freshKB.grid i j) ∧
    ((Knowledge_base.update_with_percept (pyIdx kbSize) kb loc d p = .ok kb' ∨
      Knowledge_base.mark_wall (pyIdx kbSize) kb loc d p = .ok kb' ∨
      Knowledge_base.markUnsafe (pyIdx kbSize) kb loc = .ok kb' ∨
      Knowledge_base.delete_wumpus (pyIdx kbSize) kb loc d p = .ok kb' ∨
      Knowledge_base.mark_no_wumpus_along_direction (pyIdx kbSize) kb loc d = .ok kb') →
      visitedInv (kb.grid i j) → visitedInv (kb'.grid i j)) := by
  have hrefl : ∀ c, visitedStep c c := fun c => id
  have htrans : ∀ a b c, visitedStep a b → visitedStep b c → visitedStep a c :=
    fun a b c h1 h2 h => h2 (h1 h)
  have hfdel : ∀ c, visitedStep c
      { c with isUnsafe := false, safe := true, possible_wumpus := 0 } :=
    fun c h hv => ⟨rfl, rfl, (h hv).2.2⟩
  have hfwall : ∀ c, visitedStep c
      { c with wall := true, possible_pit := 0, possible_wumpus := 0 } :=
    fun c h hv => ⟨(h hv).1, rfl, rfl⟩
  have hfcur : ∀ c, visitedStep c
      { c with visited := true, safe := true, possible_pit := 0, possible_wumpus := 0 } :=
    fun c _ _ => ⟨rfl, rfl, rfl⟩
  have hfus : ∀ c, visitedStep c { c with isUnsafe := true } := fun c h => h
  have hfnw : ∀ c, visitedStep c { c with possible_wumpus := 0 } :=
    fun c h hv => ⟨(h hv).1, rfl, (h hv).2.2⟩
  refine ⟨fun h => absurd h (by simp [freshKB]), fun hop => ?_⟩
  rcases hop with h | h | h | h | h
  · exact preservesR_update hrefl htrans hfdel hfwall hfcur (pyIdx kbSize)
      loc d p (visitedStep_apply p) kb kb' h i j
  · exact preservesR_mark_wall hrefl hfwall (pyIdx kbSize) loc d p kb kb' h i j
  · exact preservesR_markUnsafe hrefl hfus (pyIdx kbSize) loc kb kb' h i j
  · exact preservesR_delete_wumpus hrefl hfdel (pyIdx kbSize) loc d p kb kb' h i j
  · exact preservesR_noWumpusLoop hrefl htrans hfnw (pyIdx kbSize) _ _ 16 loc kb kb' h i j

/-- Witness for claim C8: the visited invariant holds on the fresh grid
and is carried across a concrete `markUnsafe` call. -/
theorem C8_visited_invariant_witness :
    visitedInv (freshKB.grid ⟨2, by decide⟩ ⟨2, by decide⟩) ∧
    visitedInv (kbU.grid ⟨2, by decide⟩ ⟨2, by decide⟩) :=
  ⟨(C8_visited_invariant freshKB kbU ⟨1, 1⟩ .NORTH {} ⟨2, by decide⟩ ⟨2, by decide⟩).1,
   (C8_visited_invariant freshKB kbU ⟨1, 1⟩ .NORTH {} ⟨2, by decide⟩ ⟨2, by decide⟩).2
     (Or.inr (Or.inr (Or.inl (by decide))))
     ((C8_visited_invariant freshKB kbU ⟨1, 1⟩ .NORTH {} ⟨2, by decide⟩ ⟨2, by decide⟩).1)⟩

/-- Preservation of the placement invariant by one physical-grid update. -/
theorem envInv_modifyE {f : Cell → Cell} (hf : ∀ cl, cellInvE cl → cellInvE (f cl))
    {env env' : Environment} {r cc : Int}
    (h : Environment.modifyECell env r cc f = .ok env') (hinv : envInv env) :
    envInv env' := by
  unfold Environment.modifyECell at h
  rcases h1 : pyIdx envSize r with _ | ii <;> rcases h2 : pyIdx envSize cc with _ | jj <;>
    rw [h1, h2] at h
  · exact absurd h (by simp)
  · exact absurd h (by simp)
  · exact absurd h (by simp)
  injection h with h
  subst h
  intro i j
  show cellInvE (if i = ii ∧ j = jj then f (env.grid ii jj) else env.grid i j)
  split
  · exact hf _ (hinv ii jj)
  · exact hinv i j

/-- Preservation of the placement invariant by the arrow walk. -/
theorem envInv_shootLoop (dr dc : Int) :
    ∀ (fuel : Nat) (r cc : Int) (env : Environment)
      (res : Bool × Option String × Int × Environment),
      Environment.shootLoop dr dc fuel r cc env = .ok res →
      envInv env → envInv res.2.2.2 := by
  intro fuel
  induction fuel with
  | zero =>
      intro r cc env res h hinv
      unfold Environment.shootLoop at h
      injection h with h
      subst h
      exact hinv
  | succ n ih =>
      intro r cc env res h hinv
      unfold Environment.shootLoop at h
      split at h
      · rcases hg : Environment.getECell env (r + dr) (cc + dc) with e | cl <;>
          rw [hg] at h
        · rw [ebind_err] at h
          exact absurd h (by simp)
        · rw [ebind_ok] at h
          split at h
          · rcases hm : Environment.modifyECell env (r + dr) (cc + dc)
                (fun cl => { cl with has_wumpus := false }) with e | env2 <;>
              rw [hm] at h
            · rw [ebind_err] at h
              exact absurd h (by simp)
            · rw [ebind_ok] at h
              injection h with h
              subst h
              have hfw : ∀ cl, cellInvE cl → cellInvE { cl with has_wumpus := false } := by
                intro cl hcl
                exact ⟨by simp, fun hg2 => ⟨rfl, (hcl.2 hg2).2⟩⟩
              exact envInv_modifyE hfw hm hinv
          · exact ih _ _ _ _ h hinv
      · injection h with h
        subst h
        exact hinv

/-- Preservation of the placement invariant by `perform_action`. -/
theorem envInv_perform (env : Environment) (action : Option Action)
    (loc : Location) (d : Direction)
    (res : Bool × Option String × Int × Environment)
    (h : Environment.perform_action env action loc d = .ok res)
    (hinv : envInv env) : envInv res.2.2.2 := by
  have hagent : ∀ (b : Bool) (cl : Cell), cellInvE cl →
      cellInvE { cl with has_agent := b } :=
    fun b cl hcl => ⟨hcl.1, fun hg2 => hcl.2 hg2⟩
  simp only [Environment.perform_action] at h
  split at h
  · -- FORWARD
    split at h
    · injection h with h
      subst h
      exact hinv
    · rcases hm1 : Environment.modifyECell env (loc.row - 1) (loc.col - 1)
          (fun c => { c with has_agent := false }) with e | env1 <;> rw [hm1] at h
      · rw [ebind_err] at h
        exact absurd h (by simp)
      rw [ebind_ok] at h
      rcases hm2 : Environment.modifyECell env1 ((loc.move d).row - 1) ((loc.move d).col - 1)
          (fun c => { c with has_agent := true }) with e | env2 <;> rw [hm2] at h
      · rw [ebind_err] at h
        exact absurd h (by simp)
      rw [ebind_ok] at h
      have hinv2 : envInv env2 :=
        envInv_modifyE (hagent true) hm2 (envInv_modifyE (hagent false) hm1 hinv)
      rcases hg : Environment.getECell env2 ((loc.move d).row - 1) ((loc.move d).col - 1)
          with e | cl <;> rw [hg] at h
      · rw [ebind_err] at h
        exact absurd h (by simp)
      rw [ebind_ok] at h
      split at h <;> [skip; split at h] <;>
        · injection h with h
          subst h
          exact hinv2
  · split at h
    · -- SHOOT_ARROW
      exact envInv_shootLoop d.delta.1 d.delta.2 16 (loc.row - 1) (loc.col - 1) env res h hinv
    · split at h
      · -- GRAB_GOLD
        rcases hg : Environment.getECell env (loc.row - 1) (loc.col - 1) with e | cl <;>
          rw [hg] at h
        · rw [ebind_err] at h
          exact absurd h (by simp)
        rw [ebind_ok] at h
        split at h
        · rcases hm : Environment.modifyECell env (loc.row - 1) (loc.col - 1)
              (fun c => { c with has_gold := false }) with e | env2 <;> rw [hm] at h
          · rw [ebind_err] at h
            exact absurd h (by simp)
          · rw [ebind_ok] at h
            injection h with h
            subst h
            have hfg : ∀ cl, cellInvE cl → cellInvE { cl with has_gold := false } := by
              intro cl hcl
              exact ⟨hcl.1, by simp⟩
            exact envInv_modifyE hfg hm hinv
        · injection h with h
          subst h
          exact hinv
      · split at h
        · -- CLIMB
          split at h <;>
            · injection h with h
              subst h
              exact hinv
        · -- default branch (TURN_LEFT, TURN_RIGHT, None)
          injection h with h
          subst h
          exact hinv

/-- Preservation of the placement invariant by one guarded `set_map`
placement. -/
theorem envInv_setMapPlace {f : Cell → Cell} (hf : ∀ cl, cellInvE cl → cellInvE (f cl))
    (env : Environment) (loc : Location) (hinv : envInv env) :
    envInv (Environment.setMapPlace env loc f) := by
  unfold Environment.setMapPlace
  split
  · rcases hm : Environment.modifyECell env (loc.row - 1) (loc.col - 1) f with e | env2
    · exact hinv
    · exact envInv_modifyE hf hm hinv
  · exact hinv

/-- Preservation of the placement invariant by a fold of guarded
placements. -/
theorem envInv_foldl_place {f : Cell → Cell} (hf : ∀ cl, cellInvE cl → cellInvE (f cl)) :
    ∀ (ls : List Location) (env : Environment), envInv env →
      envInv (ls.foldl (fun e loc => Environment.setMapPlace e loc f) env) := by
  intro ls
  induction ls with
  | nil => intro env h; exact h
  | cons x xs ih => intro env h; exact ih _ (envInv_setMapPlace hf env x h)

/-- After `set_map` the placement invariant holds unconditionally: the
grid is cleared first and every placement goes through the guarded `Cell`
methods. -/
theorem envInv_set_map (env : Environment) (w p : List Location) (g a : Location) :
    envInv (Environment.set_map env w p g a) := by
  have hwump : ∀ cl, cellInvE cl → cellInvE (Cell.place_wumpus cl) := by
    intro cl hcl
    unfold Cell.place_wumpus
    split
    · exact hcl
    · next hgd =>
        simp only [Bool.or_eq_true, not_or, Bool.not_eq_true] at hgd
        exact ⟨by simp [hgd.1], fun hg2 => absurd hg2 (by simp [hgd.2])⟩
  have hpitp : ∀ cl, cellInvE cl → cellInvE (Cell.place_pit cl) := by
    intro cl hcl
    unfold Cell.place_pit
    split
    · exact hcl
    · next hgd =>
        simp only [Bool.or_eq_true, not_or, Bool.not_eq_true] at hgd
        exact ⟨by simp [hgd.1], fun hg2 => absurd hg2 (by simp [hgd.2])⟩
  have hgoldp : ∀ cl, cellInvE cl → cellInvE (Cell.place_gold cl) := by
    intro cl hcl
    unfold Cell.place_gold
    split
    · exact hcl
    · next hgd =>
        simp only [Bool.or_eq_true, not_or, Bool.not_eq_true] at hgd
        exact ⟨by simp [hgd.1], fun _ => ⟨by simp [hgd.2], by simp [hgd.1]⟩⟩
  have hagentp : ∀ cl, cellInvE cl → cellInvE { cl with has_agent := true } :=
    fun cl hcl => ⟨hcl.1, hcl.2⟩
  have hclear : envInv
      { env with
          grid := fun i j =>
            { env.grid i j with
                has_wumpus := false, has_pit := false,
                has_gold := false, has_agent := false } } :=
    fun i j => ⟨by simp, by simp⟩
  exact envInv_setMapPlace hagentp _ a
    (envInv_setMapPlace hgoldp _ g
      (envInv_foldl_place hpitp p _
        (envInv_foldl_place hwump w _ hclear)))

/-- After random placement with draws satisfying the `random.sample`
contract, the placement invariant holds. -/
theorem envInv_init (ch : Environment.PlacementChoices) (hv : ch.Valid) :
    envInv (Environment.init ch) := by
  obtain ⟨hnw, hnp, hw0, hp0, hg0, hdisj, hgw, hgp⟩ := hv
  intro i j
  have hbase : (Environment.initialGrid i j).has_wumpus = false ∧
      (Environment.initialGrid i j).has_pit = false ∧
      (Environment.initialGrid i j).has_gold = false := by
    unfold Environment.initialGrid
    split <;> exact ⟨rfl, rfl, rfl⟩
  simp only [Environment.init, Environment.place_objects]
  by_cases hg : (i, j) = ch.gold_cell
  · have hw : (i, j) ∉ ch.wumpus_cells := by rw [hg]; exact hgw
    have hp : (i, j) ∉ ch.pit_cells := by rw [hg]; exact hgp
    rw [if_pos hg, if_neg hp, if_neg hw]
    exact ⟨by simp [hbase.1], fun _ => ⟨hbase.1, hbase.2.1⟩⟩
  · rw [if_neg hg]
    by_cases hp : (i, j) ∈ ch.pit_cells
    · have hw : (i, j) ∉ ch.wumpus_cells := hdisj _ hp
      rw [if_pos hp, if_neg hw]
      exact ⟨by simp [hbase.1], fun h2 => absurd h2 (by simp [hbase.2.2])⟩
    · rw [if_neg hp]
      by_cases hw : (i, j) ∈ ch.wumpus_cells
      · rw [if_pos hw]
        exact ⟨by simp [hbase.2.1], fun h2 => absurd h2 (by simp [hbase.2.2])⟩
      · rw [if_neg hw]
        exact ⟨by simp [hbase.1], fun h2 => absurd h2 (by simp [hbase.2.2])⟩

/-- Claim C10 (status: confirmed).  In every reachable environment state —
after random placement, after any `set_map`, and after any sequence of
`perform_action` transitions — no cell carries both a wumpus and a pit,
and no cell carries gold together with a wumpus or a pit. -/
theorem C10_hazard_separation (e : Environment) (h : EnvReachable e) : envInv e := by
  induction h with
  | init ch hv => exact envInv_init ch hv
  | setMap e w p g a _ _ => exact envInv_set_map e w p g a
  | act e action loc d r _ hperf ih => exact envInv_perform e action loc d r hperf ih

/-- Witness for claim C10 at a concrete randomly-placed environment. -/
theorem C10_hazard_separation_witness :
    EnvReachable (Environment.init chW) ∧ envInv (Environment.init chW) :=
  ⟨EnvReachable.init chW (by refine ⟨by decide, by decide, by decide, by decide, by decide, by decide, by decide, by decide⟩),
   C10_hazard_separation (Environment.init chW)
     (EnvReachable.init chW (by refine ⟨by decide, by decide, by decide, by decide, by decide, by decide, by decide, by decide⟩))⟩

/-- Python indexing is good on in-bounds indices. -/
theorem goodIdx_py : GoodIdx (pyIdx kbSize) := by
  intro i h
  unfold pyIdx
  rw [dif_pos h]

/-- Wrap-free indexing is good on in-bounds indices. -/
theorem goodIdx_strict : GoodIdx (strictIdx kbSize) := by
  intro i h
  unfold strictIdx
  rw [dif_pos h]

/-- Reading an in-bounds cell through a good index coercion. -/
theorem getCellI_good {idx : KBIdx} (hg : GoodIdx idx) (kb : Knowledge_base)
    {r c : Int} (hr : 0 ≤ r ∧ r < (kbSize : Int)) (hc : 0 ≤ c ∧ c < (kbSize : Int)) :
    getCellI idx kb r c =
      .ok (kb.grid ⟨r.toNat, by omega⟩ ⟨c.toNat, by omega⟩) := by
  unfold getCellI
  rw [hg r hr, hg c hc]

/-- Writing an in-bounds cell through a good index coercion. -/
theorem modifyCellI_good {idx : KBIdx} (hg : GoodIdx idx) (kb : Knowledge_base)
    {r c : Int} (hr : 0 ≤ r ∧ r < (kbSize : Int)) (hc : 0 ≤ c ∧ c < (kbSize : Int))
    (f : Knowledge_Cell → Knowledge_Cell) :
    modifyCellI idx kb r c f =
      .ok ⟨fun i2 j2 =>
        if i2 = ⟨r.toNat, by omega⟩ ∧ j2 = ⟨c.toNat, by omega⟩ then
          f (kb.grid ⟨r.toNat, by omega⟩ ⟨c.toNat, by omega⟩)
        else kb.grid i2 j2⟩ := by
  unfold modifyCellI
  rw [hg r hr, hg c hc]

/-- Location-addressed reading of an in-bounds cell. -/
theorem cellAtL_inb (kb : Knowledge_base) {l : Location} (h : inb6 l) :
    cellAtL kb l = kb.grid ⟨l.row.toNat, by exact (by unfold inb6 at h; omega)⟩
      ⟨l.col.toNat, by exact (by unfold inb6 at h; omega)⟩ := by
  unfold cellAtL
  rw [goodIdx_py l.row h.1, goodIdx_py l.col h.2]

/-- The four neighbours of a playable-area location are in bounds. -/
theorem adj_inb6 (loc : Location) (hr : 1 ≤ loc.row ∧ loc.row ≤ 4)
    (hc : 1 ≤ loc.col ∧ loc.col ≤ 4) :
    ∀ l ∈ loc.get_adjacent, inb6 l := by
  intro l hl
  simp only [Location.get_adjacent, directionList, List.map_cons, List.map_nil,
    Location.move, Direction.delta, List.mem_cons, List.not_mem_nil, or_false] at hl
  unfold inb6 kbSize
  rcases hl with rfl | rfl | rfl | rfl <;> constructor <;> constructor <;> simp <;> omega

/-- A playable-area location is itself in bounds. -/
theorem self_inb6 (loc : Location) (hr : 1 ≤ loc.row ∧ loc.row ≤ 4)
    (hc : 1 ≤ loc.col ∧ loc.col ≤ 4) : inb6 loc := by
  unfold inb6 kbSize
  constructor <;> constructor <;> omega

/-- Reading an in-bounds location yields its `cellAtL` value. -/
theorem getCellI_inb {idx : KBIdx} (hg : GoodIdx idx) (kb : Knowledge_base)
    {l : Location} (h : inb6 l) :
    getCellI idx kb l.row l.col = .ok (cellAtL kb l) := by
  rw [getCellI_good hg kb h.1 h.2, cellAtL_inb kb h]

/-- Evaluation of the `_get_valid_adjacent_cells` loop over in-bounds
locations: it filters by the not-visited/not-wall/not-safe test. -/
theorem validAdjAux_good {idx : KBIdx} (hg : GoodIdx idx) (kb : Knowledge_base) :
    ∀ ls : List Location, (∀ l ∈ ls, inb6 l) →
      Knowledge_base.validAdjAux idx kb ls =
        .ok (ls.filter fun l =>
          !(cellAtL kb l).visited && !(cellAtL kb l).wall && !(cellAtL kb l).safe) := by
  intro ls
  induction ls with
  | nil => intro _; rfl
  | cons x xs ih =>
      intro h
      have hx := h x (List.mem_cons_self x xs)
      unfold Knowledge_base.validAdjAux
      rw [getCellI_inb hg kb hx, ebind_ok,
        ih (fun l hl => h l (List.mem_cons_of_mem x hl)), ebind_ok, List.filter_cons]
      by_cases hcond : (!(cellAtL kb x).visited && !(cellAtL kb x).wall &&
          !(cellAtL kb x).safe) = true
      · rw [if_pos hcond, if_pos hcond]
      · rw [if_neg hcond, if_neg hcond]

/-- Evaluation of the candidate filter of `get_adjacent_cells` over
in-bounds locations, pairing each kept neighbour with its combined risk. -/
theorem filterValidPairs_good {idx : KBIdx} (hg : GoodIdx idx) (kb : Knowledge_base) :
    ∀ ls : List Location, (∀ l ∈ ls, inb6 l) →
      Knowledge_base.filterValidPairs idx kb ls =
        .ok ((ls.filter fun l =>
            !(cellAtL kb l).wall && !(cellAtL kb l).visited && !(cellAtL kb l).isUnsafe).map
          fun l => (l, riskAt kb l)) := by
  intro ls
  induction ls with
  | nil => intro _; rfl
  | cons x xs ih =>
      intro h
      have hx := h x (List.mem_cons_self x xs)
      unfold Knowledge_base.filterValidPairs
      rw [getCellI_inb hg kb hx, ebind_ok,
        ih (fun l hl => h l (List.mem_cons_of_mem x hl)), ebind_ok, List.filter_cons]
      by_cases hcond : (!(cellAtL kb x).wall && !(cellAtL kb x).visited &&
          !(cellAtL kb x).isUnsafe) = true
      · rw [if_pos hcond, if_pos hcond, List.map_cons]
        show Except.ok ((x, (cellAtL kb x).possible_wumpus + (cellAtL kb x).possible_pit) :: _) = _
        rfl
      · rw [if_neg hcond, if_neg hcond]

/-- Evaluation of `get_adjacent_cells` at a good index coercion. -/
theorem get_adjacent_cells_good {idx : KBIdx} (hg : GoodIdx idx)
    (kb : Knowledge_base) (loc : Location)
    (hadj : ∀ l ∈ loc.get_adjacent, inb6 l) :
    Knowledge_base.get_adjacent_cells idx kb loc =
      .ok (((((loc.get_adjacent.filter fun l =>
          !(cellAtL kb l).wall && !(cellAtL kb l).visited && !(cellAtL kb l).isUnsafe).map
        fun l => (l, riskAt kb l)).mergeSort Knowledge_base.riskLe).map Prod.fst)) := by
  unfold Knowledge_base.get_adjacent_cells
  rw [filterValidPairs_good hg kb _ hadj, ebind_ok]

/-- The `delete_wumpus` walk never touches an out-of-bounds index, so any
two good coercions give the same successful result. -/
theorem deleteLoop_agree {idx1 idx2 : KBIdx} (h1 : GoodIdx idx1) (h2 : GoodIdx idx2)
    (dr dc : Int) :
    ∀ (fuel : Nat) (r c : Int) (kb : Knowledge_base),
      ∃ kb', Knowledge_base.deleteWumpusLoop idx1 dr dc fuel r c kb = .ok kb' ∧
             Knowledge_base.deleteWumpusLoop idx2 dr dc fuel r c kb = .ok kb' := by
  intro fuel
  induction fuel with
  | zero => intro r c kb; exact ⟨kb, rfl, rfl⟩
  | succ n ih =>
      intro r c kb
      unfold Knowledge_base.deleteWumpusLoop
      by_cases hbnd : 0 ≤ r + dr ∧ r + dr < (kbSize : Int) ∧ 0 ≤ c + dc ∧
          c + dc < (kbSize : Int)
      · rw [if_pos hbnd, if_pos hbnd,
          getCellI_good h1 kb ⟨hbnd.1, hbnd.2.1⟩ ⟨hbnd.2.2.1, hbnd.2.2.2⟩,
          getCellI_good h2 kb ⟨hbnd.1, hbnd.2.1⟩ ⟨hbnd.2.2.1, hbnd.2.2.2⟩,
          ebind_ok, ebind_ok]
        by_cases hfound : (kb.grid ⟨(r + dr).toNat, by omega⟩
            ⟨(c + dc).toNat, by omega⟩).isUnsafe = true ∧
            (kb.grid ⟨(r + dr).toNat, by omega⟩ ⟨(c + dc).toNat, by omega⟩).possible_wumpus > 0
        · rw [if_pos hfound, if_pos hfound,
            modifyCellI_good h1 kb ⟨hbnd.1, hbnd.2.1⟩ ⟨hbnd.2.2.1, hbnd.2.2.2⟩,
            modifyCellI_good h2 kb ⟨hbnd.1, hbnd.2.1⟩ ⟨hbnd.2.2.1, hbnd.2.2.2⟩]
          exact ⟨_, rfl, rfl⟩
        · rw [if_neg hfound, if_neg hfound]
          exact ih _ _ kb
      · rw [if_neg hbnd, if_neg hbnd]
        exact ⟨kb, rfl, rfl⟩

/-- Wall-cell indices of a playable-area location are in bounds. -/
theorem wall_idx_inb (loc : Location) (d : Direction)
    (hr : 1 ≤ loc.row ∧ loc.row ≤ 4) (hc : 1 ≤ loc.col ∧ loc.col ≤ 4) :
    (0 ≤ loc.row + d.delta.1 ∧ loc.row + d.delta.1 < (kbSize : Int)) ∧
    (0 ≤ loc.col + d.delta.2 ∧ loc.col + d.delta.2 < (kbSize : Int)) := by
  unfold kbSize
  cases d <;> simp [Direction.delta] <;> omega

/-- From a playable-area location, `mark_wall` never touches an
out-of-bounds index, so any two good coercions give the same successful
result. -/
theorem mark_wall_agree {idx1 idx2 : KBIdx} (h1 : GoodIdx idx1) (h2 : GoodIdx idx2)
    (kb : Knowledge_base) (loc : Location) (d : Direction) (p : Percept)
    (hr : 1 ≤ loc.row ∧ loc.row ≤ 4) (hc : 1 ≤ loc.col ∧ loc.col ≤ 4) :
    ∃ kb', Knowledge_base.mark_wall idx1 kb loc d p = .ok kb' ∧
           Knowledge_base.mark_wall idx2 kb loc d p = .ok kb' := by
  obtain ⟨hwr, hwc⟩ := wall_idx_inb loc d hr hc
  unfold Knowledge_base.mark_wall
  by_cases hb : p.bump = true
  · rw [if_pos hb, if_pos hb, getCellI_good h1 kb hwr hwc,
      getCellI_good h2 kb hwr hwc, ebind_ok, ebind_ok,
      if_pos ⟨hwr.1, hwr.2, hwc.1, hwc.2⟩, if_pos ⟨hwr.1, hwr.2, hwc.1, hwc.2⟩,
      modifyCellI_good h1 kb hwr hwc, modifyCellI_good h2 kb hwr hwc]
    exact ⟨_, rfl, rfl⟩
  · rw [if_neg hb, if_neg hb]
    exact ⟨kb, rfl, rfl⟩

/-- The `_apply_breeze_and_stench` loop over in-bounds locations gives the
same successful result at any two good coercions. -/
theorem applyCellsAux_agree {idx1 idx2 : KBIdx} (h1 : GoodIdx idx1)
    (h2 : GoodIdx idx2) (p : Percept) :
    ∀ (ls : List Location), (∀ l ∈ ls, inb6 l) → ∀ kb : Knowledge_base,
      ∃ kb', Knowledge_base.applyCellsAux idx1 p ls kb = .ok kb' ∧
             Knowledge_base.applyCellsAux idx2 p ls kb = .ok kb' := by
  intro ls
  induction ls with
  | nil => intro _ kb; exact ⟨kb, rfl, rfl⟩
  | cons x xs ih =>
      intro h kb
      have hx := h x (List.mem_cons_self x xs)
      unfold Knowledge_base.applyCellsAux
      rw [modifyCellI_good h1 kb hx.1 hx.2, modifyCellI_good h2 kb hx.1 hx.2,
        ebind_ok, ebind_ok]
      exact ih (fun l hl => h l (List.mem_cons_of_mem x hl)) _

/-- From a playable-area location, `update_with_percept` never touches an
out-of-bounds index, so any two good coercions give the same successful
result. -/
theorem update_agree {idx1 idx2 : KBIdx} (h1 : GoodIdx idx1) (h2 : GoodIdx idx2)
    (kb : Knowledge_base) (loc : Location) (d : Direction) (p : Percept)
    (hr : 1 ≤ loc.row ∧ loc.row ≤ 4) (hc : 1 ≤ loc.col ∧ loc.col ≤ 4) :
    ∃ kb', Knowledge_base.update_with_percept idx1 kb loc d p = .ok kb' ∧
           Knowledge_base.update_with_percept idx2 kb loc d p = .ok kb' := by
  have hloc := self_inb6 loc hr hc
  have hadj := adj_inb6 loc hr hc
  unfold Knowledge_base.update_with_percept
  obtain ⟨kbA, hA1, hA2⟩ :
      ∃ kbA, (if p.scream = true then
          Knowledge_base.delete_wumpus idx1 kb loc d p else .ok kb) = .ok kbA ∧
        (if p.scream = true then
          Knowledge_base.delete_wumpus idx2 kb loc d p else .ok kb) = .ok kbA := by
    by_cases hs : p.scream = true
    · rw [if_pos hs, if_pos hs]
      unfold Knowledge_base.delete_wumpus
      rw [if_pos hs, if_pos hs]
      exact deleteLoop_agree h1 h2 d.delta.1 d.delta.2 16 loc.row loc.col kb
    · rw [if_neg hs, if_neg hs]
      exact ⟨kb, rfl, rfl⟩
  rw [hA1, hA2, ebind_ok, ebind_ok]
  obtain ⟨kbB, hB1, hB2⟩ :
      ∃ kbB, (if p.bump = true then
          Knowledge_base.mark_wall idx1 kbA loc d p else .ok kbA) = .ok kbB ∧
        (if p.bump = true then
          Knowledge_base.mark_wall idx2 kbA loc d p else .ok kbA) = .ok kbB := by
    by_cases hb : p.bump = true
    · rw [if_pos hb, if_pos hb]
      exact mark_wall_agree h1 h2 kbA loc d p hr hc
    · rw [if_neg hb, if_neg hb]
      exact ⟨kbA, rfl, rfl⟩
  rw [hB1, hB2, ebind_ok, ebind_ok]
  rw [getCellI_inb h1 kbB hloc, getCellI_inb h2 kbB hloc, ebind_ok, ebind_ok]
  by_cases hv : (!(cellAtL kbB loc).visited) = true
  · rw [if_pos hv, if_pos hv]
    unfold Knowledge_base.mark_current_as_visited_and_safe
    rw [modifyCellI_good h1 kbB hloc.1 hloc.2, modifyCellI_good h2 kbB hloc.1 hloc.2,
      ebind_ok, ebind_ok]
    unfold Knowledge_base.get_valid_adjacent_cells
    rw [validAdjAux_good h1 _ _ hadj, validAdjAux_good h2 _ _ hadj, ebind_ok, ebind_ok]
    unfold Knowledge_base.apply_breeze_and_stench
    exact applyCellsAux_agree h1 h2 p _
      (fun l hl => hadj l (List.mem_filter.mp hl).1) _
  · rw [if_neg hv, if_neg hv]
    exact ⟨kbB, rfl, rfl⟩

/-- Claim C9 (status: confirmed).  For every agent location in the
playable 4×4 area (1-based coordinates 1..4) and every heading, the
knowledge-base operations `get_adjacent_cells`, `update_with_percept` and
`mark_wall` index only grid positions with row and column in 0..5: they
succeed (no `IndexError`), and they compute the same result when Python's
wrap-around index coercion is replaced by the wrap-free one, so no
negative-index wrap-around is ever exercised. -/
theorem C9_indexing_in_bounds (kb : Knowledge_base) (loc : Location)
    (d : Direction) (p : Percept)
    (hr : 1 ≤ loc.row ∧ loc.row ≤ 4) (hc : 1 ≤ loc.col ∧ loc.col ≤ 4) :
    (∃ v, Knowledge_base.get_adjacent_cells (pyIdx kbSize) kb loc = .ok v ∧
          Knowledge_base.get_adjacent_cells (strictIdx kbSize) kb loc = .ok v) ∧
    (∃ kb', Knowledge_base.update_with_percept (pyIdx kbSize) kb loc d p = .ok kb' ∧
            Knowledge_base.update_with_percept (strictIdx kbSize) kb loc d p = .ok kb') ∧
    (∃ kb', Knowledge_base.mark_wall (pyIdx kbSize) kb loc d p = .ok kb' ∧
            Knowledge_base.mark_wall (strictIdx kbSize) kb loc d p = .ok kb') := by
  refine ⟨⟨_, get_adjacent_cells_good goodIdx_py kb loc (adj_inb6 loc hr hc),
      get_adjacent_cells_good goodIdx_strict kb loc (adj_inb6 loc hr hc)⟩,
    update_agree goodIdx_py goodIdx_strict kb loc d p hr hc,
    mark_wall_agree goodIdx_py goodIdx_strict kb loc d p hr hc⟩

/-- Witness for claim C9 at the fresh knowledge base and start location. -/
theorem C9_indexing_in_bounds_witness :
    (∃ v, Knowledge_base.get_adjacent_cells (pyIdx kbSize) freshKB ⟨1, 1⟩ = .ok v ∧
          Knowledge_base.get_adjacent_cells (strictIdx kbSize) freshKB ⟨1, 1⟩ = .ok v) ∧
    (∃ kb', Knowledge_base.update_with_percept (pyIdx kbSize) freshKB ⟨1, 1⟩
              .NORTH perceptNone = .ok kb' ∧
            Knowledge_base.update_with_percept (strictIdx kbSize) freshKB ⟨1, 1⟩
              .NORTH perceptNone = .ok kb') ∧
    (∃ kb', Knowledge_base.mark_wall (pyIdx kbSize) freshKB ⟨1, 1⟩
              .NORTH perceptNone = .ok kb' ∧
            Knowledge_base.mark_wall (strictIdx kbSize) freshKB ⟨1, 1⟩
              .NORTH perceptNone = .ok kb') :=
  C9_indexing_in_bounds freshKB ⟨1, 1⟩ .NORTH perceptNone (by decide) (by decide)

/-- Transitivity of the combined-risk comparison. -/
theorem riskLe_trans (a b c : Location × Int)
    (h1 : Knowledge_base.riskLe a b = true) (h2 : Knowledge_base.riskLe b c = true) :
    Knowledge_base.riskLe a c = true := by
  simp only [Knowledge_base.riskLe, decide_eq_true_eq] at h1 h2 ⊢
  omega

/-- Totality of the combined-risk comparison. -/
theorem riskLe_total (a b : Location × Int) :
    (Knowledge_base.riskLe a b || Knowledge_base.riskLe b a) = true := by
  simp only [Knowledge_base.riskLe, Bool.or_eq_true, decide_eq_true_eq]
  omega

/-- Two distinct members of a list occur in one of the two orders. -/
theorem mem_two_sublist {α : Type} {l : List α} {a b : α} (ha : a ∈ l)
    (hb : b ∈ l) (hab : a ≠ b) : [a, b].Sublist l ∨ [b, a].Sublist l := by
  induction l with
  | nil => simp at ha
  | cons x xs ih =>
      rcases List.mem_cons.mp ha with rfl | ha2
      · rcases List.mem_cons.mp hb with rfl | hb2
        · exact absurd rfl hab
        · exact Or.inl ((List.singleton_sublist.mpr hb2).cons₂ a)
      · rcases List.mem_cons.mp hb with rfl | hb2
        · exact Or.inr ((List.singleton_sublist.mpr ha2).cons₂ b)
        · rcases ih ha2 hb2 with h | h
          · exact Or.inl (h.cons x)
          · exact Or.inr (h.cons x)

/-- In a duplicate-free list, two distinct members occur in only one
order. -/
theorem sublist_pair_asymm {α : Type} {l : List α} {a b : α} (hn : l.Nodup)
    (h1 : [a, b].Sublist l) (h2 : [b, a].Sublist l) (hab : a ≠ b) : False := by
  induction l with
  | nil => cases h1
  | cons x xs ih =>
      rw [List.nodup_cons] at hn
      cases h1 with
      | cons _ h1' =>
          cases h2 with
          | cons _ h2' => exact ih hn.2 h1' h2'
          | cons₂ _ h2' => exact hn.1 (List.Sublist.mem (by simp) h1')
      | cons₂ _ h1' =>
          cases h2 with
          | cons _ h2' => exact hn.1 (List.Sublist.mem (by simp) h2')
          | cons₂ _ h2' => exact hab rfl

/-- The four neighbours of any location are pairwise distinct. -/
theorem adj_nodup (loc : Location) : loc.get_adjacent.Nodup := by
  simp [Location.get_adjacent, directionList, Location.move, Direction.delta,
    Location.mk.injEq]

/-- Claim C4 (status: confirmed).  For a playable-area observing location
and every knowledge-base state, `get_adjacent_cells` returns exactly the
grid-adjacent neighbours that are not walls, not visited and not unsafe
(in particular the empty sequence when no such neighbour exists), in an
order that is ascending in combined risk `possible_wumpus + possible_pit`
with ties broken by the fixed north, east, south, west enumeration order
of `Location.get_adjacent` (precedence in that enumeration is expressed as
`[a, b].Sublist loc.get_adjacent`). -/
theorem C4_candidate_neighbors (kb : Knowledge_base) (loc : Location)
    (hr : 1 ≤ loc.row ∧ loc.row ≤ 4) (hc : 1 ≤ loc.col ∧ loc.col ≤ 4) :
    ∃ res, Knowledge_base.get_adjacent_cells (pyIdx kbSize) kb loc = .ok res ∧
      (∀ x, x ∈ res ↔ (x ∈ loc.get_adjacent ∧ (cellAtL kb x).wall = false ∧
        (cellAtL kb x).visited = false ∧ (cellAtL kb x).isUnsafe = false)) ∧
      res.Pairwise (fun a b => riskAt kb a < riskAt kb b ∨
        (riskAt kb a = riskAt kb b ∧ [a, b].Sublist loc.get_adjacent)) := by
  have hadj := adj_inb6 loc hr hc
  have hnd := adj_nodup loc
  refine ⟨_, get_adjacent_cells_good goodIdx_py kb loc hadj, ?_, ?_⟩
  all_goals
    set P := fun l : Location =>
      !(cellAtL kb l).wall && !(cellAtL kb l).visited && !(cellAtL kb l).isUnsafe with hP
    set flt := loc.get_adjacent.filter P with hflt
    set g := fun l : Location => (l, riskAt kb l) with hg
    set prs := flt.map g with hprs
    set srt := prs.mergeSort Knowledge_base.riskLe with hsrt
    have hperm : srt.Perm prs := List.mergeSort_perm prs Knowledge_base.riskLe
    have hfltnd : flt.Nodup := List.Nodup.sublist (List.filter_sublist _) hnd
    have ginj : Function.Injective g := fun a b h => congrArg Prod.fst h
    have hprsnd : prs.Nodup := List.Nodup.map ginj hfltnd
    have hsrtnd : srt.Nodup := hperm.nodup_iff.mpr hprsnd
  · -- membership characterisation
    intro x
    rw [List.mem_map]
    constructor
    · rintro ⟨q, hq, rfl⟩
      have hq2 := hperm.mem_iff.mp hq
      rcases List.mem_map.mp hq2 with ⟨l, hl, rfl⟩
      have hmf := List.mem_filter.mp hl
      have hflag := hmf.2
      simp only [hP, Bool.and_eq_true, Bool.not_eq_true'] at hflag
      exact ⟨hmf.1, hflag.1.1, hflag.1.2, hflag.2⟩
    · rintro ⟨hxadj, hw, hv, hu⟩
      refine ⟨g x, hperm.mem_iff.mpr (List.mem_map.mpr ⟨x, ?_, rfl⟩), rfl⟩
      refine List.mem_filter.mpr ⟨hxadj, ?_⟩
      simp only [hP, Bool.and_eq_true, Bool.not_eq_true']
      exact ⟨⟨hw, hv⟩, hu⟩
  · -- sortedness with the stable tie-break
    have hsorted : srt.Pairwise (fun a b => Knowledge_base.riskLe a b = true) :=
      List.sorted_mergeSort riskLe_trans riskLe_total prs
    have hmapfst : prs.map Prod.fst = flt := by
      rw [hprs, List.map_map]
      exact List.map_id flt
    rw [List.pairwise_iff_forall_sublist]
    intro a b hab
    rcases List.sublist_map_iff.mp hab with ⟨l2, hl2sub, hl2eq⟩
    rcases l2 with _ | ⟨pa, l2t⟩
    · simp at hl2eq
    rcases l2t with _ | ⟨pb, l2tt⟩
    · simp at hl2eq
    rcases l2tt with _ | ⟨z, l2ttt⟩
    swap
    · simp at hl2eq
    obtain ⟨ha, hb⟩ : a = pa.1 ∧ b = pb.1 := by simpa using hl2eq
    subst ha
    subst hb
    have hpasrt : pa ∈ srt := List.Sublist.mem (by simp) hl2sub
    have hpbsrt : pb ∈ srt := List.Sublist.mem (by simp) hl2sub
    have hpa : pa ∈ prs := hperm.mem_iff.mp hpasrt
    have hpb : pb ∈ prs := hperm.mem_iff.mp hpbsrt
    obtain ⟨la, hla, hgla⟩ := List.mem_map.mp hpa
    obtain ⟨lb, hlb, hglb⟩ := List.mem_map.mp hpb
    have hpa2 : pa.2 = riskAt kb pa.1 := by rw [← hgla]
    have hpb2 : pb.2 = riskAt kb pb.1 := by rw [← hglb]
    have hle : Knowledge_base.riskLe pa pb = true :=
      List.pairwise_iff_forall_sublist.mp hsorted hl2sub
    rw [Knowledge_base.riskLe, decide_eq_true_eq, hpa2, hpb2] at hle
    rcases lt_or_eq_of_le hle with hlt | heq
    · exact Or.inl hlt
    · refine Or.inr ⟨heq, ?_⟩
      have hpane : pa ≠ pb := by
        have h2nd : [pa, pb].Nodup := List.Nodup.sublist hl2sub hsrtnd
        simp only [List.nodup_cons, List.mem_singleton] at h2nd
        exact h2nd.1
      have hane : pa.1 ≠ pb.1 := by
        intro heq1
        apply hpane
        rw [← hgla, ← hglb]
        rw [hg]
        rw [← hgla] at hpa2
        rw [← hglb] at hpb2
        simp only [hg] at hgla hglb
        rw [← hgla, ← hglb] at heq1
        simp only at heq1
        rw [heq1]
      rcases mem_two_sublist hpa hpb hpane with hord | hord
      · have hfstord : [pa.1, pb.1].Sublist flt := by
          have := List.Sublist.map Prod.fst hord
          rw [hmapfst] at this
          exact this
        exact hfstord.trans (List.filter_sublist _)
      · exfalso
        have hpair : [pb, pa].Pairwise (fun x y => Knowledge_base.riskLe x y = true) := by
          simp only [List.pairwise_cons, List.mem_singleton, List.pairwise_cons,
            List.not_mem_nil, List.Pairwise.nil, forall_eq]
          refine ⟨?_, by simp⟩
          rw [Knowledge_base.riskLe, decide_eq_true_eq, hpa2, hpb2, heq]
        have hstable : [pb, pa].Sublist srt :=
          List.sublist_mergeSort riskLe_trans riskLe_total hpair hord
        exact sublist_pair_asymm hsrtnd hl2sub hstable hpane

/-- Witness for claim C4 at the fresh knowledge base and location (2,3). -/
theorem C4_candidate_neighbors_witness :
    ∃ res, Knowledge_base.get_adjacent_cells (pyIdx kbSize) freshKB ⟨2, 3⟩ = .ok res ∧
      (∀ x, x ∈ res ↔ (x ∈ (Location.mk 2 3).get_adjacent ∧
        (cellAtL freshKB x).wall = false ∧
        (cellAtL freshKB x).visited = false ∧ (cellAtL freshKB x).isUnsafe = false)) ∧
      res.Pairwise (fun a b => riskAt freshKB a < riskAt freshKB b ∨
        (riskAt freshKB a = riskAt freshKB b ∧
          [a, b].Sublist (Location.mk 2 3).get_adjacent)) :=
  C4_candidate_neighbors freshKB ⟨2, 3⟩ (by decide) (by decide)

/-- Cell already carrying the wall marking is a fixed point of the
`mark_wall` cell update. -/
theorem fwall_fixed (x : Knowledge_Cell) (h1 : x.wall = true)
    (h2 : x.possible_pit = 0) (h3 : x.possible_wumpus = 0) :
    { x with wall := true, possible_pit := 0, possible_wumpus := 0 } = x := by
  cases x
  simp_all

/-- Every neighbour differs from the centre in at least one coordinate. -/
theorem adj_ne_self (loc : Location) :
    ∀ l ∈ loc.get_adjacent, l.row ≠ loc.row ∨ l.col ≠ loc.col := by
  intro l hl
  simp only [Location.get_adjacent, directionList, List.map_cons, List.map_nil,
    Location.move, Direction.delta, List.mem_cons, List.not_mem_nil, or_false] at hl
  rcases hl with rfl | rfl | rfl | rfl <;> simp

/-- The wall cell differs from the observing location in at least one
coordinate. -/
theorem wall_ne_self (loc : Location) (d : Direction) :
    loc.row + d.delta.1 ≠ loc.row ∨ loc.col + d.delta.2 ≠ loc.col := by
  cases d <;> simp [Direction.delta]

/-- The `_apply_breeze_and_stench` loop leaves untouched any cell whose
coordinates match no element of its worklist. -/
theorem applyCellsAux_frame {idx : KBIdx} (hg : GoodIdx idx) (p : Percept)
    {r c : Int} (hrb : 0 ≤ r ∧ r < (kbSize : Int)) (hcb : 0 ≤ c ∧ c < (kbSize : Int)) :
    ∀ (ls : List Location), (∀ l ∈ ls, inb6 l) →
      (∀ l ∈ ls, l.row ≠ r ∨ l.col ≠ c) →
      ∀ (kb kb' : Knowledge_base),
        Knowledge_base.applyCellsAux idx p ls kb = .ok kb' →
        kb'.grid ⟨r.toNat, by omega⟩ ⟨c.toNat, by omega⟩ =
          kb.grid ⟨r.toNat, by omega⟩ ⟨c.toNat, by omega⟩ := by
  intro ls
  induction ls with
  | nil =>
      intro _ _ kb kb' h
      injection h with h
      subst h
      rfl
  | cons x xs ih =>
      intro hb hmis kb kb' h
      have hx := hb x (List.mem_cons_self x xs)
      unfold Knowledge_base.applyCellsAux at h
      rw [modifyCellI_good hg kb hx.1 hx.2, ebind_ok] at h
      have step := ih (fun l hl => hb l (List.mem_cons_of_mem x hl))
        (fun l hl => hmis l (List.mem_cons_of_mem x hl)) _ kb' h
      refine step.trans ?_
      have hxmis := hmis x (List.mem_cons_self x xs)
      dsimp only
      rw [if_neg]
      rintro ⟨h1, h2⟩
      rw [Fin.mk.injEq] at h1 h2
      have hxr0 : 0 ≤ x.row ∧ x.row < (kbSize : Int) := hx.1
      have hxc0 : 0 ≤ x.col ∧ x.col < (kbSize : Int) := hx.2
      rcases hxmis with hxr | hxc
      · exact hxr (by omega)
      · exact hxc (by omega)

/-- Second application of `update_with_percept` is the identity provided
the current cell is already visited and, when the percept carries a bump,
the wall cell is already marked with zeroed counters. -/
theorem update_second_noop (kb1 : Knowledge_base) (loc : Location) (d : Direction)
    (p : Percept) (hs : p.scream = false)
    (hr : 1 ≤ loc.row ∧ loc.row ≤ 4) (hc : 1 ≤ loc.col ∧ loc.col ≤ 4)
    (hvis : (cellAtL kb1 loc).visited = true)
    (hwall : p.bump = true →
      (cellAtL kb1 ⟨loc.row + d.delta.1, loc.col + d.delta.2⟩).wall = true ∧
      (cellAtL kb1 ⟨loc.row + d.delta.1, loc.col + d.delta.2⟩).possible_pit = 0 ∧
      (cellAtL kb1 ⟨loc.row + d.delta.1, loc.col + d.delta.2⟩).possible_wumpus = 0) :
    Knowledge_base.update_with_percept (pyIdx kbSize) kb1 loc d p = .ok kb1 := by
  have hloc := self_inb6 loc hr hc
  obtain ⟨hwr, hwc⟩ := wall_idx_inb loc d hr hc
  unfold Knowledge_base.update_with_percept
  rw [hs]
  rw [if_neg (by simp), ebind_ok]
  have hmw : (if p.bump = true then
      Knowledge_base.mark_wall (pyIdx kbSize) kb1 loc d p else .ok kb1) = .ok kb1 := by
    by_cases hb : p.bump = true
    · rw [if_pos hb]
      obtain ⟨hw1, hw2, hw3⟩ := hwall hb
      have hWin : inb6 (⟨loc.row + d.delta.1, loc.col + d.delta.2⟩ : Location) :=
        ⟨hwr, hwc⟩
      rw [cellAtL_inb kb1 hWin] at hw1 hw2 hw3
      unfold Knowledge_base.mark_wall
      rw [if_pos hb, getCellI_good goodIdx_py kb1 hwr hwc, ebind_ok,
        if_pos ⟨hwr.1, hwr.2, hwc.1, hwc.2⟩, modifyCellI_good goodIdx_py kb1 hwr hwc]
      congr 1
      cases kb1 with
      | mk g1 =>
          congr 1
          funext i2 j2
          dsimp only
          by_cases hij : i2 = (⟨(loc.row + d.delta.1).toNat, by omega⟩ : Fin kbSize) ∧
              j2 = (⟨(loc.col + d.delta.2).toNat, by omega⟩ : Fin kbSize)
          · rw [if_pos hij]
            obtain ⟨rfl, rfl⟩ := hij
            exact fwall_fixed _ hw1 hw2 hw3
          · rw [if_neg hij]
    · rw [if_neg hb]
  rw [hmw, ebind_ok, getCellI_inb goodIdx_py kb1 hloc, ebind_ok,
    if_neg (by simp [hvis])]

/-- Restatement of `modifyCellI_good` through `kbSet`. -/
theorem modifyCellI_good2 {idx : KBIdx} (hg : GoodIdx idx) (kb : Knowledge_base)
    {r c : Int} (hr : 0 ≤ r ∧ r < (kbSize : Int)) (hc : 0 ≤ c ∧ c < (kbSize : Int))
    (f : Knowledge_Cell → Knowledge_Cell) :
    modifyCellI idx kb r c f =
      .ok (kbSet kb ⟨r.toNat, by omega⟩ ⟨c.toNat, by omega⟩
        (f (kb.grid ⟨r.toNat, by omega⟩ ⟨c.toNat, by omega⟩))) :=
  modifyCellI_good hg kb hr hc f

/-- Reading back the overwritten cell. -/
theorem kbSet_grid_same (kb : Knowledge_base) (i j : Fin kbSize)
    (c : Knowledge_Cell) : (kbSet kb i j c).grid i j = c := by
  show (if i = i ∧ j = j then c else kb.grid i j) = c
  rw [if_pos ⟨rfl, rfl⟩]

/-- Reading any other cell after an overwrite. -/
theorem kbSet_grid_other (kb : Knowledge_base) (i j i2 j2 : Fin kbSize)
    (c : Knowledge_Cell) (h : ¬(i2 = i ∧ j2 = j)) :
    (kbSet kb i j c).grid i2 j2 = kb.grid i2 j2 := by
  show (if i2 = i ∧ j2 = j then c else kb.grid i2 j2) = _
  rw [if_neg h]

/-- Distinct non-negative coordinate pairs give distinct grid indices. -/
theorem fin_pair_ne {a b a2 b2 : Int} (ha : 0 ≤ a) (hb : 0 ≤ b) (ha2 : 0 ≤ a2)
    (hb2 : 0 ≤ b2) {pa : a.toNat < kbSize} {pb : b.toNat < kbSize}
    {pa2 : a2.toNat < kbSize} {pb2 : b2.toNat < kbSize} (hne : a ≠ a2 ∨ b ≠ b2) :
    ¬((⟨a.toNat, pa⟩ : Fin kbSize) = ⟨a2.toNat, pa2⟩ ∧
      (⟨b.toNat, pb⟩ : Fin kbSize) = ⟨b2.toNat, pb2⟩) := by
  rintro ⟨h1, h2⟩
  rw [Fin.mk.injEq] at h1 h2
  rcases hne with h | h
  · exact h (by omega)
  · exact h (by omega)

/-- The neighbour-update loop never touches the observing location. -/
theorem applyCells_keeps_center (kb1 : Knowledge_base) (loc : Location)
    (p : Percept) (hr : 1 ≤ loc.row ∧ loc.row ≤ 4) (hc : 1 ≤ loc.col ∧ loc.col ≤ 4)
    (ls : List Location) (hsub : ∀ l ∈ ls, l ∈ loc.get_adjacent)
    (kbC : Knowledge_base)
    (h1 : Knowledge_base.applyCellsAux (pyIdx kbSize) p ls kbC = .ok kb1) :
    cellAtL kb1 loc = cellAtL kbC loc := by
  have hloc := self_inb6 loc hr hc
  rw [cellAtL_inb kb1 hloc, cellAtL_inb kbC hloc]
  exact applyCellsAux_frame goodIdx_py p hloc.1 hloc.2 ls
    (fun l hl => adj_inb6 loc hr hc l (hsub l hl))
    (fun l hl => adj_ne_self loc l (hsub l hl)) kbC kb1 h1

/-- When the wall cell is already marked, the neighbour-update loop run on
the valid-neighbour filter never touches it (the filter excludes walls). -/
theorem applyCells_keeps_wall (kb1 : Knowledge_base) (loc : Location)
    (d : Direction) (p : Percept)
    (hr : 1 ≤ loc.row ∧ loc.row ≤ 4) (hc : 1 ≤ loc.col ∧ loc.col ≤ 4)
    (kbC : Knowledge_base)
    (hCwall : (cellAtL kbC ⟨loc.row + d.delta.1, loc.col + d.delta.2⟩).wall = true)
    (h1 : Knowledge_base.applyCellsAux (pyIdx kbSize) p
      (loc.get_adjacent.filter fun l =>
        !(cellAtL kbC l).visited && !(cellAtL kbC l).wall && !(cellAtL kbC l).safe)
      kbC = .ok kb1) :
    cellAtL kb1 (⟨loc.row + d.delta.1, loc.col + d.delta.2⟩ : Location) =
      cellAtL kbC ⟨loc.row + d.delta.1, loc.col + d.delta.2⟩ := by
  obtain ⟨hwr, hwc⟩ := wall_idx_inb loc d hr hc
  rw [cellAtL_inb kb1 ⟨hwr, hwc⟩, cellAtL_inb kbC ⟨hwr, hwc⟩]
  refine applyCellsAux_frame goodIdx_py p hwr hwc _ ?_ ?_ kbC kb1 h1
  · intro l hl
    exact adj_inb6 loc hr hc l (List.mem_filter.mp hl).1
  · intro l hl
    have hmf := List.mem_filter.mp hl
    by_contra hcon
    push_neg at hcon
    obtain ⟨e1, e2⟩ := hcon
    have hlW : l = (⟨loc.row + d.delta.1, loc.col + d.delta.2⟩ : Location) := by
      cases l
      simp_all
    rw [hlW] at hmf
    have := hmf.2
    rw [hCwall] at this
    simp at this

/-- Effect of the first-visit body of `update_with_percept` (mark current,
filter neighbours, apply percept): the observing cell ends up visited, and
an already-marked wall cell ahead is left unchanged. -/
theorem update_body_facts (kb0 kb1 : Knowledge_base) (loc : Location)
    (d : Direction) (p : Percept)
    (hr : 1 ≤ loc.row ∧ loc.row ≤ 4) (hc : 1 ≤ loc.col ∧ loc.col ≤ 4)
    (h1 : (Knowledge_base.mark_current_as_visited_and_safe (pyIdx kbSize) kb0 loc >>=
        fun kb3 => Knowledge_base.get_valid_adjacent_cells (pyIdx kbSize) kb3 loc >>=
        fun valid => Knowledge_base.apply_breeze_and_stench (pyIdx kbSize) kb3 valid p)
      = .ok kb1) :
    (cellAtL kb1 loc).visited = true ∧
    ((cellAtL kb0 ⟨loc.row + d.delta.1, loc.col + d.delta.2⟩).wall = true →
      cellAtL kb1 ⟨loc.row + d.delta.1, loc.col + d.delta.2⟩ =
        cellAtL kb0 ⟨loc.row + d.delta.1, loc.col + d.delta.2⟩) := by
  have hloc := self_inb6 loc hr hc
  have hr0 : 0 ≤ loc.row ∧ loc.row < (kbSize : Int) := hloc.1
  have hc0 : 0 ≤ loc.col ∧ loc.col < (kbSize : Int) := hloc.2
  have hadj := adj_inb6 loc hr hc
  obtain ⟨hwr, hwc⟩ := wall_idx_inb loc d hr hc
  unfold Knowledge_base.mark_current_as_visited_and_safe at h1
  rw [modifyCellI_good2 goodIdx_py kb0 hr0 hc0, ebind_ok] at h1
  dsimp only at h1
  set kbC : Knowledge_base := kbSet kb0 ⟨loc.row.toNat, by omega⟩
      ⟨loc.col.toNat, by omega⟩
      { kb0.grid ⟨loc.row.toNat, by omega⟩ ⟨loc.col.toNat, by omega⟩ with
          visited := true, safe := true, possible_pit := 0, possible_wumpus := 0 }
    with hkbC
  unfold Knowledge_base.get_valid_adjacent_cells at h1
  rw [validAdjAux_good goodIdx_py kbC _ hadj, ebind_ok] at h1
  unfold Knowledge_base.apply_breeze_and_stench at h1
  have hCloc : cellAtL kbC loc =
      { kb0.grid ⟨loc.row.toNat, by omega⟩ ⟨loc.col.toNat, by omega⟩ with
          visited := true, safe := true, possible_pit := 0, possible_wumpus := 0 } := by
    rw [hkbC, cellAtL_inb _ hloc]
    exact kbSet_grid_same _ _ _ _
  constructor
  · have hkeep := applyCells_keeps_center kb1 loc p hr hc _
      (fun l hl => (List.mem_filter.mp hl).1) kbC h1
    rw [hkeep, hCloc]
  · intro hwall0
    have hCW : cellAtL kbC ⟨loc.row + d.delta.1, loc.col + d.delta.2⟩ =
        cellAtL kb0 ⟨loc.row + d.delta.1, loc.col + d.delta.2⟩ := by
      rw [hkbC, cellAtL_inb _ ⟨hwr, hwc⟩, cellAtL_inb _ ⟨hwr, hwc⟩]
      exact kbSet_grid_other _ _ _ _ _ _
        (fin_pair_ne hwr.1 hwc.1 hr0.1 hc0.1 (wall_ne_self loc d))
    have hCwall : (cellAtL kbC ⟨loc.row + d.delta.1, loc.col + d.delta.2⟩).wall = true := by
      rw [hCW]
      exact hwall0
    have hkeepW := applyCells_keeps_wall kb1 loc d p hr hc kbC hCwall h1
    rw [hkeepW, hCW]

/-- Claim C6, amended: for an observing location in the playable area and
a percept whose scream cue is absent, a second identical
`update_with_percept` call returns the knowledge base unchanged — in
particular no risk counter changes on the second call. -/
theorem C6_amended_scream_free_idempotent (kb kb1 : Knowledge_base)
    (loc : Location) (d : Direction) (p : Percept) (hs : p.scream = false)
    (hr : 1 ≤ loc.row ∧ loc.row ≤ 4) (hc : 1 ≤ loc.col ∧ loc.col ≤ 4)
    (h1 : Knowledge_base.update_with_percept (pyIdx kbSize) kb loc d p = .ok kb1) :
    Knowledge_base.update_with_percept (pyIdx kbSize) kb1 loc d p = .ok kb1 := by
  have hloc := self_inb6 loc hr hc
  have hr0 : 0 ≤ loc.row ∧ loc.row < (kbSize : Int) := hloc.1
  have hc0 : 0 ≤ loc.col ∧ loc.col < (kbSize : Int) := hloc.2
  obtain ⟨hwr, hwc⟩ := wall_idx_inb loc d hr hc
  unfold Knowledge_base.update_with_percept at h1
  rw [hs] at h1
  rw [if_neg (by simp), ebind_ok] at h1
  by_cases hb : p.bump = true
  · rw [if_pos hb] at h1
    unfold Knowledge_base.mark_wall at h1
    rw [if_pos hb, getCellI_good goodIdx_py kb hwr hwc, ebind_ok,
      if_pos ⟨hwr.1, hwr.2, hwc.1, hwc.2⟩,
      modifyCellI_good2 goodIdx_py kb hwr hwc, ebind_ok] at h1
    dsimp only at h1
    set kbW : Knowledge_base := kbSet kb ⟨(loc.row + d.delta.1).toNat, by omega⟩
        ⟨(loc.col + d.delta.2).toNat, by omega⟩
        { kb.grid ⟨(loc.row + d.delta.1).toNat, by omega⟩
            ⟨(loc.col + d.delta.2).toNat, by omega⟩ with
          wall := true, possible_pit := 0, possible_wumpus := 0 }
      with hkbW
    have hWcell : cellAtL kbW ⟨loc.row + d.delta.1, loc.col + d.delta.2⟩ =
        { kb.grid ⟨(loc.row + d.delta.1).toNat, by omega⟩
            ⟨(loc.col + d.delta.2).toNat, by omega⟩ with
          wall := true, possible_pit := 0, possible_wumpus := 0 } := by
      rw [hkbW, cellAtL_inb _ ⟨hwr, hwc⟩]
      exact kbSet_grid_same _ _ _ _
    rw [getCellI_inb goodIdx_py kbW hloc, ebind_ok] at h1
    by_cases hv : (cellAtL kbW loc).visited = true
    · rw [if_neg (by simp [hv])] at h1
      injection h1 with h1
      subst h1
      refine update_second_noop kbW loc d p hs hr hc hv (fun _ => ?_)
      rw [hWcell]
      exact ⟨rfl, rfl, rfl⟩
    · have hv2 : (cellAtL kbW loc).visited = false := by
        revert hv
        cases (cellAtL kbW loc).visited <;> simp
      rw [if_pos (by rw [hv2]; rfl)] at h1
      have hbody := update_body_facts kbW kb1 loc d p hr hc h1
      refine update_second_noop kb1 loc d p hs hr hc hbody.1 (fun _ => ?_)
      have h2 := hbody.2 (by rw [hWcell])
      rw [h2, hWcell]
      exact ⟨rfl, rfl, rfl⟩
  · rw [if_neg hb, ebind_ok] at h1
    rw [getCellI_inb goodIdx_py kb hloc, ebind_ok] at h1
    by_cases hv : (cellAtL kb loc).visited = true
    · rw [if_neg (by simp [hv])] at h1
      injection h1 with h1
      subst h1
      exact update_second_noop kb loc d p hs hr hc hv (fun hbt => absurd hbt hb)
    · have hv2 : (cellAtL kb loc).visited = false := by
        revert hv
        cases (cellAtL kb loc).visited <;> simp
      rw [if_pos (by rw [hv2]; rfl)] at h1
      have hbody := update_body_facts kb kb1 loc d p hr hc h1
      exact update_second_noop kb1 loc d p hs hr hc hbody.1 (fun hbt => absurd hbt hb)

/-- Claim C6, counterexample.  With a scream-carrying percept repeated
from the same location, the second `update_with_percept` call still
changes a risk counter: from `kbScream`, the first call at (1,1) facing
east clears the wumpus risk of unvisited cell (1,2) and leaves (1,3) at
risk 1; the second identical call then clears the (still unvisited) cell
(1,3) as well, so (1,3)'s counter changes on the second call, refuting the
claim as stated. -/
theorem C6_second_call_changes_risk :
    visitedAt c6first ⟨1, by decide⟩ ⟨3, by decide⟩ = some false ∧
    pwAt c6first ⟨1, by decide⟩ ⟨3, by decide⟩ = some 1 ∧
    pwAt c6second ⟨1, by decide⟩ ⟨3, by decide⟩ = some 0 := by
  decide

/-- Witness for the amended claim C6 at a concrete first-call result. -/
theorem C6_amended_scream_free_idempotent_witness :
    Knowledge_base.update_with_percept (pyIdx kbSize) kbAfter11 ⟨1, 1⟩ .NORTH
      perceptNone = .ok kbAfter11 :=
  C6_amended_scream_free_idempotent freshKB kbAfter11 ⟨1, 1⟩ .NORTH perceptNone
    rfl (by decide) (by decide) (by decide)
